import Mathlib

/-!
# meet2mee signaling server: room store, connection registry and relay handlers

A shallow embedding of `src/server.js`.  The two module-level stores `rooms` and
`userSocketMap` are plain JavaScript objects used as dictionaries; they are modelled as
lists of own properties in the order `Object.keys` enumerates them.  Each Socket.IO event
handler becomes a function from the state (and the event payload) to a `Result`: the state
it leaves, the events it emits, and whether it ended by throwing.

Room ids and user ids are the strings clients send, so the property names every object
literal inherits from `Object.prototype` are modelled: reading one of them from `rooms`
gives a truthy value that is no room, and assigning to `__proto__` on a `users` object
replaces its prototype.  Connections are numbered; `socketRoom` gives the id string the
transport generated for a connection.  That string names the transport room the connection
is in from the moment it connects, and a client is free to send it as a room id.  The token
`uuidv4()` returns is an input of the `send-message` event.
-/

namespace Meet2Mee

/-! ## JavaScript objects used as dictionaries -/

/-- Own enumerable string-keyed properties of an ordinary object, in the order in which
`Object.keys` and `Object.values` list them. -/
abbrev Props (κ : Type) (α : Type) := List (κ × α)

namespace Props

variable {κ α : Type} [DecidableEq κ]

/-- Own property lookup: the value stored under key `k`, if the object has that own key. -/
def get : Props κ α → κ → Option α
  | [], _ => none
  | (k', v) :: rest, k => if k' = k then some v else get rest k

/-- Whether the object has `k` as an own key. -/
def has (o : Props κ α) (k : κ) : Bool := (get o k).isSome

/-- The JavaScript `delete o[k]`: the own property `k` is removed, if there is one. -/
def erase (o : Props κ α) (k : κ) : Props κ α := o.filter (fun p => decide (p.1 ≠ k))

/-- Assignment to an own property that already exists: the value changes, the position
of the key in the enumeration order does not. -/
def replace : Props κ α → κ → α → Props κ α
  | [], _, _ => []
  | (k', v') :: rest, k, v => if k' = k then (k, v) :: rest else (k', v') :: replace rest k v

/-- Whether a new key `k` is enumerated before the existing key `k'`: integer-index keys
come first in ascending numeric order, all other keys follow in creation order. -/
def before (idx : κ → Option Nat) (k k' : κ) : Bool :=
  match idx k, idx k' with
  | some n, some m => decide (n < m)
  | some _, none => true
  | none, _ => false

/-- Creation of a new own property at its place in the enumeration order. -/
def insertNew (idx : κ → Option Nat) : Props κ α → κ → α → Props κ α
  | [], k, v => [(k, v)]
  | (k', v') :: rest, k, v =>
    if before idx k k' then (k, v) :: (k', v') :: rest
    else (k', v') :: insertNew idx rest k v

/-- The JavaScript `o[k] = v` on own properties: overwrite in place when `k` is an own key,
create the property otherwise. -/
def put (idx : κ → Option Nat) (o : Props κ α) (k : κ) (v : α) : Props κ α :=
  if has o k then replace o k v else insertNew idx o k v

/-- `Object.keys(o)`. -/
def keys (o : Props κ α) : List κ := o.map Prod.fst

/-- `Object.values(o)`. -/
def values (o : Props κ α) : List α := o.map Prod.snd

end Props

/-- Value of a decimal digit character. -/
def digitValue (c : Char) : Option Nat :=
  if 48 ≤ c.toNat ∧ c.toNat ≤ 57 then some (c.toNat - 48) else none

/-- Reads a run of decimal digits, most significant first. -/
def readDigits : List Char → Nat → Option Nat
  | [], acc => some acc
  | c :: cs, acc =>
    match digitValue c with
    | some d => readDigits cs (acc * 10 + d)
    | none => none

/-- The array index a property key denotes, if any: a canonical decimal numeral (no sign, no
leading zero) below `2^32 - 1`.  Such keys are enumerated first, in numeric order. -/
def arrayIndex (s : String) : Option Nat :=
  match s.data with
  | [] => none
  | c :: cs =>
    if c.toNat = 48 ∧ cs ≠ [] then none
    else match readDigits (c :: cs) 0 with
      | some n => if n < 4294967295 then some n else none
      | none => none

/-- The property names every object literal inherits from `Object.prototype`. -/
def objectPrototypeKeys : List String :=
  ["constructor", "__defineGetter__", "__defineSetter__", "hasOwnProperty",
   "__lookupGetter__", "__lookupSetter__", "isPrototypeOf", "propertyIsEnumerable",
   "toString", "valueOf", "__proto__", "toLocaleString"]

/-- What reading `o[k]` on an object literal gives. -/
inductive Lookup (α : Type) where
  /-- The own property stored under the key. -/
  | own (v : α)
  /-- A member of `Object.prototype` (a function, or the prototype itself for `__proto__`):
  truthy, and not one of the values the program stored. -/
  | inherited
  /-- The value `undefined`. -/
  | undefined
deriving DecidableEq, Repr

/-- Property read `o[k]` on an object created by `{}` whose prototype is untouched. -/
def lookup {α : Type} (o : Props String α) (k : String) : Lookup α :=
  match Props.get o k with
  | some v => Lookup.own v
  | none => if k ∈ objectPrototypeKeys then Lookup.inherited else Lookup.undefined

/-! ## Data model -/

/-- Identifier the transport assigns to a connection (`socket.id`). -/
abbrev SocketId := Nat

/-- The id of a connection as a string, which is also the name of the transport room that
holds the connection by itself.  Socket.IO draws it at random; here the ids of different
connections are the different strings made of `#` and strokes. -/
def socketRoom (c : SocketId) : String := String.mk ('#' :: List.replicate c '|')

/-- Member entry `{ id, socketId }` of a room. -/
structure User where
  id : String
  socketId : SocketId
deriving DecidableEq, Repr

/-- The `users` object of a room: its own properties, and the member entry that an
assignment to the key `__proto__` installed as the object's prototype (if any). -/
structure Users where
  own : Props String User
  proto : Option User
deriving DecidableEq, Repr

/-- Chat message `{ id, userId, message, timestamp }` as built by the `send-message`
handler. -/
structure Message where
  id : String
  userId : String
  message : String
  timestamp : String
deriving DecidableEq, Repr

/-- Room `{ id, users, messages }`. -/
structure Room where
  id : String
  users : Users
  messages : List Message
deriving DecidableEq, Repr

/-- Binding `{ userId, roomId }` stored in `userSocketMap`. -/
structure UserInfo where
  userId : String
  roomId : String
deriving DecidableEq, Repr

/-- Program state: the two module-level stores, and for each open connection the transport
rooms it is in: the room named by its own socket id, and the rooms it has entered with
`socket.join`. -/
structure State where
  rooms : Props String Room
  userSocketMap : Props SocketId UserInfo
  joined : List (SocketId × String)
deriving DecidableEq, Repr

/-- The state at start-up: `rooms = {}`, `userSocketMap = {}`, nobody joined anywhere. -/
def State.empty : State := { rooms := [], userSocketMap := [], joined := [] }

/-- Socket ids are not array indices, so `userSocketMap` lists them in creation order. -/
def socketIndex : SocketId → Option Nat := fun _ => none

/-- The JavaScript `users[userId] = entry` on a room's `users` object.  An own key is
overwritten.  Otherwise the key `__proto__` reaches the accessor inherited from
`Object.prototype`, which makes `entry` the prototype of `users` and creates no own
property; any other key becomes a new own property. -/
def Users.assign (u : Users) (userId : String) (entry : User) : Users :=
  if Props.has u.own userId then { u with own := Props.replace u.own userId entry }
  else if userId = "__proto__" then { u with proto := some entry }
  else { u with own := Props.insertNew arrayIndex u.own userId entry }

/-- The JavaScript `delete users[userId]`: only own properties are removed. -/
def Users.delete (u : Users) (userId : String) : Users :=
  { u with own := Props.erase u.own userId }

/-! ## Outbound events -/

/-- Server-to-client event: its name and payload. -/
inductive ServerEvent where
  /-- The event `user-connected` with payload `{ userId }`. -/
  | userConnected (userId : String)
  /-- The event `room-users` with payload `{ users }`. -/
  | roomUsers (users : List String)
  /-- The event `chat-history` with payload `{ messages }`. -/
  | chatHistory (messages : List Message)
  /-- The event `signal` with payload `{ userId, signal }`. -/
  | signal (userId : String) (signal : String)
  /-- The event `new-message` whose payload is the message object. -/
  | newMessage (m : Message)
  /-- The event `user-disconnected` with payload `{ userId }`. -/
  | userDisconnected (userId : String)
deriving DecidableEq, Repr

/-- One emit call made by a handler, with the way it is addressed. -/
inductive Out where
  /-- The call `socket.emit(..)`: to the handling connection itself. -/
  | emit (socket : SocketId) (e : ServerEvent)
  /-- The call `socket.to(room).emit(..)`: to the transport room `room`, except `socket`. -/
  | broadcast (socket : SocketId) (room : String) (e : ServerEvent)
  /-- The call `io.to(name).emit(..)`: to the transport room `name`, which the handlers
  give as a room id (`send-message`) or as a socket id (`signal`). -/
  | toRoom (room : String) (e : ServerEvent)
deriving DecidableEq, Repr

/-- Outcome of running a handler: the state it leaves, the emit calls it made in order,
and whether it ended with an uncaught `TypeError`. -/
structure Result where
  state : State
  out : List Out
  threw : Bool
deriving DecidableEq, Repr

/-! ## Event handlers -/

/-- The call `socket.join(roomId)`: the connection enters the transport room. -/
def socketJoin (joined : List (SocketId × String)) (socket : SocketId) (roomId : String) :
    List (SocketId × String) :=
  if (socket, roomId) ∈ joined then joined else joined ++ [(socket, roomId)]

/-- The room object the `join-room` handler creates: `{ id: roomId, users: {}, messages: [] }`. -/
def newRoom (roomId : String) : Room :=
  { id := roomId, users := { own := [], proto := none }, messages := [] }

/-- The `join-room` handler from its second statement on, where `rooms[roomId]` is the
room object `room` of the store `rooms0`. -/
def joinInto (s : State) (rooms0 : Props String Room) (room : Room) (socket : SocketId)
    (roomId userId : String) : Result :=
  -- rooms[roomId].users[userId] = { id: userId, socketId: socket.id }
  let room1 : Room :=
    { room with users := room.users.assign userId { id := userId, socketId := socket } }
  let rooms1 := Props.replace rooms0 roomId room1
  -- userSocketMap[socket.id] = { userId, roomId }
  let map1 := Props.put socketIndex s.userSocketMap socket
    { userId := userId, roomId := roomId }
  -- socket.join(roomId)
  let joined1 := socketJoin s.joined socket roomId
  -- const usersInRoom = Object.keys(rooms[roomId].users).filter(id => id !== userId)
  let usersInRoom := (Props.keys room1.users.own).filter (fun id => decide (id ≠ userId))
  { state := { rooms := rooms1, userSocketMap := map1, joined := joined1 }
    out := [Out.broadcast socket roomId (ServerEvent.userConnected userId),
            Out.emit socket (ServerEvent.roomUsers usersInRoom),
            Out.emit socket (ServerEvent.chatHistory room1.messages)]
    threw := false }

/-- Handler of `join-room` with payload `{ roomId, userId }` on connection `socket`. -/
def onJoinRoom (s : State) (socket : SocketId) (roomId userId : String) : Result :=
  -- if (!rooms[roomId]) rooms[roomId] = { id: roomId, users: {}, messages: [] }
  let rooms0 : Props String Room :=
    match lookup s.rooms roomId with
    | Lookup.undefined => Props.put arrayIndex s.rooms roomId (newRoom roomId)
    | _ => s.rooms
  match lookup rooms0 roomId with
  | Lookup.own room => joinInto s rooms0 room socket roomId userId
  | _ =>
    -- rooms[roomId] is a member of Object.prototype: its `users` is undefined and the
    -- assignment throws before anything was changed
    { state := s, out := [], threw := true }

/-- Handler of `signal` with payload `{ userId, targetUserId, signal }`. -/
def onSignal (s : State) (socket : SocketId) (userId targetUserId signal : String) : Result :=
  match Props.get s.userSocketMap socket with
  | none => { state := s, out := [], threw := false }
  | some userInfo =>
    match lookup s.rooms userInfo.roomId with
    | Lookup.undefined => { state := s, out := [], threw := false }
    | Lookup.inherited =>
      -- Object.values(room.users) with room.users undefined
      { state := s, out := [], threw := true }
    | Lookup.own room =>
      match (Props.values room.users.own).find? (fun user => decide (user.id = targetUserId)) with
      | none => { state := s, out := [], threw := false }
      | some targetUser =>
        { state := s
          out := [Out.toRoom (socketRoom targetUser.socketId)
                    (ServerEvent.signal userId signal)]
          threw := false }

/-- The history after `messages.push(newMessage)` followed by one `messages.shift()` when
the length then exceeds 100. -/
def pushBounded (messages : List Message) (newMessage : Message) : List Message :=
  let pushed := messages ++ [newMessage]
  if pushed.length > 100 then pushed.tail else pushed

/-- Handler of `send-message` with payload `{ message, roomId, userId, timestamp }`;
`uuid` is the token `uuidv4()` returns for this message. -/
def onSendMessage (s : State) (message roomId userId timestamp uuid : String) : Result :=
  match lookup s.rooms roomId with
  | Lookup.undefined => { state := s, out := [], threw := false }
  | Lookup.inherited =>
    -- rooms[roomId].messages is undefined, so `.push` throws
    { state := s, out := [], threw := true }
  | Lookup.own room =>
    let newMessage : Message :=
      { id := uuid, userId := userId, message := message, timestamp := timestamp }
    let room1 : Room := { room with messages := pushBounded room.messages newMessage }
    { state := { s with rooms := Props.replace s.rooms roomId room1 }
      out := [Out.toRoom roomId (ServerEvent.newMessage newMessage)]
      threw := false }

/-- Handler of `disconnect` on connection `socket`. -/
def onDisconnect (s : State) (socket : SocketId) : Result :=
  match Props.get s.userSocketMap socket with
  | none => { state := s, out := [], threw := false }
  | some userInfo =>
    match lookup s.rooms userInfo.roomId with
    | Lookup.undefined =>
      { state := { s with userSocketMap := Props.erase s.userSocketMap socket }
        out := [], threw := false }
    | Lookup.inherited =>
      -- delete rooms[roomId].users[userId] with rooms[roomId].users undefined
      { state := s, out := [], threw := true }
    | Lookup.own room =>
      -- delete rooms[roomId].users[userId]
      let room1 : Room := { room with users := room.users.delete userInfo.userId }
      let rooms1 := Props.replace s.rooms userInfo.roomId room1
      -- if (Object.keys(rooms[roomId].users).length === 0) delete rooms[roomId]
      let rooms2 :=
        if (Props.keys room1.users.own).length = 0 then Props.erase rooms1 userInfo.roomId
        else rooms1
      { state := { s with rooms := rooms2
                          userSocketMap := Props.erase s.userSocketMap socket }
        out := [Out.broadcast socket userInfo.roomId
                  (ServerEvent.userDisconnected userInfo.userId)]
        threw := false }

/-! ## Runs of the server -/

/-- Handler of `connection`: it logs the socket id and registers the four handlers. -/
def onConnection (s : State) (_socket : SocketId) : Result :=
  { state := s, out := [], threw := false }

/-- Inbound event together with the connection it arrives on. -/
inductive ClientEvent where
  /-- The transport's `connection` notification for a new connection. -/
  | connect (socket : SocketId)
  /-- The event `join-room` with payload `{ roomId, userId }`. -/
  | joinRoom (socket : SocketId) (roomId userId : String)
  /-- The event `signal` with payload `{ userId, targetUserId, signal }`. -/
  | signal (socket : SocketId) (userId targetUserId signal : String)
  /-- The event `send-message` with payload `{ message, roomId, userId, timestamp }`, and
  the token `uuidv4()` produces while it is handled. -/
  | sendMessage (socket : SocketId) (message roomId userId timestamp uuid : String)
  /-- The transport's disconnect notification. -/
  | disconnect (socket : SocketId)
deriving DecidableEq, Repr

/-- What the transport does before it fires `disconnect`: the connection leaves every
transport room. -/
def leaveAll (s : State) (socket : SocketId) : State :=
  { s with joined := s.joined.filter (fun p => decide (p.1 ≠ socket)) }

/-- What the transport does before it fires `connection`: the new connection enters the
transport room named by its own socket id. -/
def enterOwnRoom (s : State) (socket : SocketId) : State :=
  { s with joined := socketJoin s.joined socket (socketRoom socket) }

/-- Dispatch of one inbound event to its handler. -/
def handle (s : State) : ClientEvent → Result
  | ClientEvent.connect socket => onConnection (enterOwnRoom s socket) socket
  | ClientEvent.joinRoom socket roomId userId => onJoinRoom s socket roomId userId
  | ClientEvent.signal socket userId targetUserId signal =>
    onSignal s socket userId targetUserId signal
  | ClientEvent.sendMessage _ message roomId userId timestamp uuid =>
    onSendMessage s message roomId userId timestamp uuid
  | ClientEvent.disconnect socket => onDisconnect (leaveAll s socket) socket

/-- State after handling a sequence of inbound events in order. -/
def run (s : State) : List ClientEvent → State
  | [] => s
  | e :: es => run (handle s e).state es

/-- States the server can be in when every inbound event it handles satisfies `ok` in the
state it arrives in: the start-up state, and whatever a handler leaves when run in such a
state. -/
inductive ReachableBy (ok : State → ClientEvent → Prop) : State → Prop where
  | init : ReachableBy ok State.empty
  | step {s : State} (e : ClientEvent) :
    ReachableBy ok s → ok s e → ReachableBy ok (handle s e).state

/-- States reachable from the start-up state by any finite sequence of inbound events. -/
def Reachable (s : State) : Prop := ReachableBy (fun _ _ => True) s

/-- The `send-message` event on connection `socket` for room `roomId` from which the
handler builds the message `m`. -/
def sendEvent (roomId : String) (socket : SocketId) (m : Message) : ClientEvent :=
  ClientEvent.sendMessage socket m.message roomId m.userId m.timestamp m.id

/-- The last `n` elements of a list, in their order. -/
def lastN {α : Type} (n : Nat) (l : List α) : List α := l.drop (l.length - n)

/-! ## Properties of states -/

/-- Every room of the store has at least one own key in its `users` object. -/
def RoomsHaveMembers (s : State) : Prop :=
  ∀ p ∈ s.rooms, (Props.keys p.2.users.own).length ≠ 0

/-- Every binding of `userSocketMap` has a matching member: the room it names is in the
store and the user id it names is a key of that room's `users`. -/
def BindingsHaveMembers (s : State) : Prop :=
  ∀ (socket : SocketId) (info : UserInfo), Props.get s.userSocketMap socket = some info →
    ∃ room, Props.get s.rooms info.roomId = some room ∧
      Props.has room.users.own info.userId = true

/-- Every member entry has a matching binding: for the entry stored under `userId` in room
`roomId`, `userSocketMap` binds the entry's connection to exactly `{ userId, roomId }`. -/
def MembersHaveBindings (s : State) : Prop :=
  ∀ (roomId : String) (room : Room), Props.get s.rooms roomId = some room →
    ∀ (userId : String) (entry : User), Props.get room.users.own userId = some entry →
      Props.get s.userSocketMap entry.socketId = some { userId := userId, roomId := roomId }

/-- No two connections are bound to the same user of the same room. -/
def BindingsDistinct (s : State) : Prop :=
  ∀ (socket socket1 : SocketId) (info : UserInfo),
    Props.get s.userSocketMap socket = some info →
    Props.get s.userSocketMap socket1 = some info → socket = socket1

/-- Condition on an inbound event: a `join-room` names a user id that is not a member of
the room at that moment, and not the key `__proto__`. -/
def JoinsNewUser (s : State) : ClientEvent → Prop
  | ClientEvent.joinRoom _ roomId userId =>
    userId ≠ "__proto__" ∧
      match Props.get s.rooms roomId with
      | some room => Props.get room.users.own userId = none
      | none => True
  | _ => True

instance JoinsNewUser.decidable (s : State) (e : ClientEvent) : Decidable (JoinsNewUser s e) :=
  match e with
  | ClientEvent.joinRoom _ roomId userId =>
    match h : Props.get s.rooms roomId with
    | some room =>
      if h1 : userId ≠ "__proto__" ∧ Props.get room.users.own userId = none then
        isTrue (by simp only [JoinsNewUser, h]; exact h1)
      else isFalse (by simp only [JoinsNewUser, h]; exact h1)
    | none =>
      if h1 : userId ≠ "__proto__" then
        isTrue (by simp only [JoinsNewUser, h]; exact ⟨h1, trivial⟩)
      else isFalse (by simp only [JoinsNewUser, h]; exact fun h2 => h1 h2.1)
  | ClientEvent.connect _ => isTrue trivial
  | ClientEvent.signal _ _ _ _ => isTrue trivial
  | ClientEvent.sendMessage _ _ _ _ _ _ => isTrue trivial
  | ClientEvent.disconnect _ => isTrue trivial

/-- Condition on an inbound event: a `join-room` arrives on a connection that has no
binding at that moment. -/
def JoinsUnbound (s : State) : ClientEvent → Prop
  | ClientEvent.joinRoom socket _ _ => Props.get s.userSocketMap socket = none
  | _ => True

instance JoinsUnbound.decidable (s : State) (e : ClientEvent) : Decidable (JoinsUnbound s e) :=
  match e with
  | ClientEvent.joinRoom socket _ _ =>
    inferInstanceAs (Decidable (Props.get s.userSocketMap socket = none))
  | ClientEvent.connect _ => isTrue trivial
  | ClientEvent.signal _ _ _ _ => isTrue trivial
  | ClientEvent.sendMessage _ _ _ _ _ _ => isTrue trivial
  | ClientEvent.disconnect _ => isTrue trivial

/-- Every room of the store holds at most 100 messages. -/
def HistoryBounded (s : State) : Prop :=
  ∀ p ∈ s.rooms, p.2.messages.length ≤ 100

/-- Every member entry of a `users` object is stored under its own `id`, the way the
`join-room` handler writes it: `users[userId] = { id: userId, .. }`. -/
def Users.Keyed (u : Users) : Prop :=
  ∀ q ∈ u.own, q.2.id = q.1

instance Users.decidableKeyed (u : Users) : Decidable u.Keyed :=
  inferInstanceAs (Decidable (∀ q ∈ u.own, q.2.id = q.1))

/-- Every member entry of every room of the store is stored under its own `id`. -/
def KeyedById (s : State) : Prop :=
  ∀ p ∈ s.rooms, p.2.users.Keyed

/-- A name that is the socket id of no connection. -/
def PlainName (name : String) : Prop :=
  ∀ d : SocketId, socketRoom d ≠ name

/-- Condition on an inbound event: a `join-room` names a room id that is the socket id of
no connection. -/
def JoinsPlainRoom (_s : State) : ClientEvent → Prop
  | ClientEvent.joinRoom _ roomId _ => PlainName roomId
  | _ => True

/-- Condition on an inbound event: a `join-room` arrives on a connection that has no
binding, names a user id that is new to the room, and names a room id that is the socket
id of no connection. -/
def JoinsFresh (s : State) (e : ClientEvent) : Prop :=
  JoinsNewUser s e ∧ JoinsUnbound s e ∧ JoinsPlainRoom s e

/-- For a room name that is no socket id, a connection is in the transport room of that
name exactly when it is bound to that room. -/
def JoinedIffBound (s : State) : Prop :=
  ∀ (socket : SocketId) (roomId : String), PlainName roomId →
    ((socket, roomId) ∈ s.joined ↔
      ∃ userId, Props.get s.userSocketMap socket = some { userId := userId, roomId := roomId })

/-- Every room of the store has a name that is no socket id. -/
def RoomsPlain (s : State) : Prop :=
  ∀ (roomId : String) (room : Room), Props.get s.rooms roomId = some room → PlainName roomId

/-- The transport room named by a connection's socket id holds that connection only. -/
def OwnRoomsPrivate (s : State) : Prop :=
  ∀ (d d1 : SocketId), (d, socketRoom d1) ∈ s.joined → d = d1

/-! ## Delivery by the transport -/

/-- The connections that are in the transport room `room`. -/
def roomSockets (joined : List (SocketId × String)) (room : String) : List SocketId :=
  (joined.filter (fun p => decide (p.2 = room))).map Prod.fst

/-- The connections an emit call is delivered to, given who is in which transport room.
A closed connection is in no transport room. -/
def recipients (s : State) : Out → List SocketId
  | Out.emit socket _ => [socket]
  | Out.broadcast socket room _ =>
    (roomSockets s.joined room).filter (fun c => decide (c ≠ socket))
  | Out.toRoom room _ => roomSockets s.joined room

/-! ## The room directory -/

/-- One element `{ id, users }` of the `rooms` array that `GET /api/rooms` returns. -/
structure RoomSummary where
  id : String
  users : Nat
deriving DecidableEq, Repr

/-- The `rooms` array of `GET /api/rooms`: for each key of the store, in `Object.keys`
order, the room id and the number of keys of the room's `users`. -/
def apiRooms (rooms : Props String Room) : List RoomSummary :=
  rooms.map (fun p => { id := p.1, users := (Props.keys p.2.users.own).length })

/-! ## The keyed read compared with the handler's search -/

/-- What a property read on a room's `users` object gives. -/
inductive KeyedRead where
  /-- A member entry `{ id, socketId }`. -/
  | entry (user : User)
  /-- A value that is no member entry: a function or object of `Object.prototype`, or a
  string field of the entry that serves as prototype. -/
  | nonEntry
  /-- The value `undefined`. -/
  | undefined
deriving DecidableEq, Repr

/-- The keyed read `room.users[targetUserId]`: the own property when there is one,
otherwise what the prototype chain gives.  When an assignment to `__proto__` made a member
entry the prototype, the chain is that entry and then `Object.prototype`. -/
def keyedLookup (u : Users) (targetUserId : String) : KeyedRead :=
  match Props.get u.own targetUserId with
  | some entry => KeyedRead.entry entry
  | none =>
    match u.proto with
    | some p =>
      if targetUserId = "__proto__" then KeyedRead.entry p
      else if targetUserId = "id" ∨ targetUserId = "socketId" then KeyedRead.nonEntry
      else if targetUserId ∈ objectPrototypeKeys then KeyedRead.nonEntry
      else KeyedRead.undefined
    | none =>
      if targetUserId ∈ objectPrototypeKeys then KeyedRead.nonEntry else KeyedRead.undefined

/-- The search of the `signal` handler:
`Object.values(room.users).find(user => user.id === targetUserId)`. -/
def linearSearch (u : Users) (targetUserId : String) : Option User :=
  (Props.values u.own).find? (fun user => decide (user.id = targetUserId))

/-! ## Facts about own-property lists -/

namespace Props

variable {κ α : Type} [DecidableEq κ]

theorem get_cons (k' : κ) (v : α) (rest : Props κ α) (k : κ) :
    get ((k', v) :: rest) k = if k' = k then some v else get rest k := rfl

theorem mem_of_get {o : Props κ α} {k : κ} {v : α} (h : get o k = some v) : (k, v) ∈ o := by
  induction o with
  | nil => simp [get] at h
  | cons p rest ih =>
    obtain ⟨k', v'⟩ := p
    rw [get_cons] at h
    by_cases hk : k' = k
    · rw [if_pos hk] at h
      cases h
      subst hk
      exact List.mem_cons_self _ _
    · rw [if_neg hk] at h
      exact List.mem_cons_of_mem _ (ih h)

theorem get_eq_none_iff {o : Props κ α} {k : κ} : get o k = none ↔ ∀ p ∈ o, p.1 ≠ k := by
  induction o with
  | nil => simp [get]
  | cons p rest ih =>
    obtain ⟨k', v'⟩ := p
    rw [get_cons]
    by_cases hk : k' = k
    · rw [if_pos hk]
      constructor
      · intro h
        cases h
      · intro h
        exact absurd hk (h (k', v') (List.mem_cons_self _ _))
    · rw [if_neg hk, ih]
      constructor
      · intro h p hp
        rcases List.mem_cons.mp hp with rfl | hp
        · exact hk
        · exact h p hp
      · intro h p hp
        exact h p (List.mem_cons_of_mem _ hp)

theorem has_iff {o : Props κ α} {k : κ} : has o k = true ↔ ∃ v, get o k = some v := by
  unfold has
  cases get o k <;> simp

theorem has_eq_false_iff {o : Props κ α} {k : κ} : has o k = false ↔ get o k = none := by
  unfold has
  cases get o k <;> simp

/-! ### `replace` -/

theorem length_replace (o : Props κ α) (k : κ) (v : α) : (replace o k v).length = o.length := by
  induction o with
  | nil => rfl
  | cons p rest ih =>
    obtain ⟨k', v'⟩ := p
    unfold replace
    split <;> simp [ih]

theorem keys_replace (o : Props κ α) (k : κ) (v : α) : keys (replace o k v) = keys o := by
  induction o with
  | nil => rfl
  | cons p rest ih =>
    obtain ⟨k', v'⟩ := p
    unfold replace
    by_cases hk : k' = k
    · rw [if_pos hk]
      simp [keys, hk]
    · rw [if_neg hk]
      simp only [keys, List.map_cons] at ih ⊢
      rw [ih]

theorem get_replace_self {o : Props κ α} {k : κ} (v : α) (h : has o k = true) :
    get (replace o k v) k = some v := by
  induction o with
  | nil => simp [has, get] at h
  | cons p rest ih =>
    obtain ⟨k', v'⟩ := p
    unfold replace
    by_cases hk : k' = k
    · rw [if_pos hk, get_cons, if_pos rfl]
    · rw [if_neg hk, get_cons, if_neg hk]
      apply ih
      unfold has at h ⊢
      rwa [get_cons, if_neg hk] at h

theorem get_replace_of_ne (o : Props κ α) {k k' : κ} (v : α) (h : k' ≠ k) :
    get (replace o k v) k' = get o k' := by
  induction o with
  | nil => rfl
  | cons p rest ih =>
    obtain ⟨k0, v0⟩ := p
    unfold replace
    by_cases hk : k0 = k
    · rw [if_pos hk, get_cons, get_cons]
      have h1 : ¬ k = k' := fun e => h e.symm
      have h2 : ¬ k0 = k' := fun e => h (hk ▸ e).symm
      rw [if_neg h1, if_neg h2]
    · rw [if_neg hk, get_cons, get_cons, ih]

theorem mem_replace {o : Props κ α} {k : κ} {v : α} {p : κ × α} (h : p ∈ replace o k v) :
    p ∈ o ∨ p = (k, v) := by
  induction o with
  | nil => simp [replace] at h
  | cons q rest ih =>
    obtain ⟨k0, v0⟩ := q
    unfold replace at h
    by_cases hk : k0 = k
    · rw [if_pos hk] at h
      rcases List.mem_cons.mp h with rfl | h
      · exact Or.inr rfl
      · exact Or.inl (List.mem_cons_of_mem _ h)
    · rw [if_neg hk] at h
      rcases List.mem_cons.mp h with rfl | h
      · exact Or.inl (List.mem_cons_self _ _)
      · rcases ih h with h | h
        · exact Or.inl (List.mem_cons_of_mem _ h)
        · exact Or.inr h

/-! ### `insertNew` and `put` -/

omit [DecidableEq κ] in
theorem length_insertNew (idx : κ → Option Nat) (o : Props κ α) (k : κ) (v : α) :
    (insertNew idx o k v).length = o.length + 1 := by
  induction o with
  | nil => rfl
  | cons p rest ih =>
    obtain ⟨k', v'⟩ := p
    unfold insertNew
    split <;> simp [ih]

theorem mem_insertNew {idx : κ → Option Nat} {o : Props κ α} {k : κ} {v : α} {p : κ × α} :
    p ∈ insertNew idx o k v ↔ p = (k, v) ∨ p ∈ o := by
  induction o with
  | nil => simp [insertNew]
  | cons q rest ih =>
    obtain ⟨k0, v0⟩ := q
    unfold insertNew
    split
    · simp
    · simp only [List.mem_cons, ih]
      tauto

theorem get_insertNew_self {idx : κ → Option Nat} {o : Props κ α} {k : κ} (v : α)
    (h : get o k = none) : get (insertNew idx o k v) k = some v := by
  induction o with
  | nil => simp [insertNew, get]
  | cons q rest ih =>
    obtain ⟨k0, v0⟩ := q
    rw [get_cons] at h
    by_cases hk : k0 = k
    · rw [if_pos hk] at h
      cases h
    · rw [if_neg hk] at h
      unfold insertNew
      split
      · rw [get_cons, if_pos rfl]
      · rw [get_cons, if_neg hk, ih h]

theorem get_insertNew_of_ne (idx : κ → Option Nat) (o : Props κ α) {k k' : κ} (v : α)
    (h : k' ≠ k) : get (insertNew idx o k v) k' = get o k' := by
  have h1 : ¬ k = k' := fun e => h e.symm
  induction o with
  | nil => simp [insertNew, get, h1]
  | cons q rest ih =>
    obtain ⟨k0, v0⟩ := q
    unfold insertNew
    split
    · rw [get_cons, if_neg h1]
    · rw [get_cons, get_cons, ih]

theorem get_put_self (idx : κ → Option Nat) (o : Props κ α) (k : κ) (v : α) :
    get (put idx o k v) k = some v := by
  unfold put
  cases hh : has o k with
  | true => simpa using get_replace_self v hh
  | false => simpa using get_insertNew_self v (has_eq_false_iff.mp hh)

theorem get_put_of_ne (idx : κ → Option Nat) (o : Props κ α) {k k' : κ} (v : α) (h : k' ≠ k) :
    get (put idx o k v) k' = get o k' := by
  unfold put
  cases hh : has o k with
  | true => simpa using get_replace_of_ne o v h
  | false => simpa using get_insertNew_of_ne idx o v h

theorem mem_put {idx : κ → Option Nat} {o : Props κ α} {k : κ} {v : α} {p : κ × α}
    (h : p ∈ put idx o k v) : p ∈ o ∨ p = (k, v) := by
  unfold put at h
  cases hh : has o k with
  | true =>
    rw [hh] at h
    exact mem_replace (by simpa using h)
  | false =>
    rw [hh] at h
    have := mem_insertNew.mp (by simpa using h)
    tauto

/-! ### `erase` -/

theorem mem_erase {o : Props κ α} {k : κ} {p : κ × α} : p ∈ erase o k ↔ p ∈ o ∧ p.1 ≠ k := by
  simp [erase, List.mem_filter]

theorem get_erase_self (o : Props κ α) (k : κ) : get (erase o k) k = none := by
  rw [get_eq_none_iff]
  intro p hp
  exact (mem_erase.mp hp).2

theorem erase_cons (q : κ × α) (rest : Props κ α) (k : κ) :
    erase (q :: rest) k = if q.1 = k then erase rest k else q :: erase rest k := by
  unfold erase
  by_cases hk : q.1 = k <;> simp [List.filter_cons, hk]

theorem get_erase_of_ne (o : Props κ α) {k k' : κ} (h : k' ≠ k) :
    get (erase o k) k' = get o k' := by
  induction o with
  | nil => rfl
  | cons q rest ih =>
    obtain ⟨k0, v0⟩ := q
    rw [erase_cons]
    by_cases hk : k0 = k
    · have h2 : ¬ k0 = k' := fun e => h (hk ▸ e).symm
      rw [if_pos hk, get_cons, if_neg h2, ih]
    · rw [if_neg hk, get_cons, get_cons, ih]

end Props

/-! ## Facts about property reads and the handlers -/

theorem lookup_of_get {α : Type} {o : Props String α} {k : String} {v : α}
    (h : Props.get o k = some v) : lookup o k = Lookup.own v := by
  simp [lookup, h]

theorem get_of_lookup {α : Type} {o : Props String α} {k : String} {v : α}
    (h : lookup o k = Lookup.own v) : Props.get o k = some v := by
  unfold lookup at h
  cases hg : Props.get o k with
  | some w =>
    rw [hg] at h
    simp only [Lookup.own.injEq] at h
    rw [h]
  | none =>
    rw [hg] at h
    simp only at h
    split at h <;> cases h

theorem get_none_of_lookup_undefined {α : Type} {o : Props String α} {k : String}
    (h : lookup o k = Lookup.undefined) : Props.get o k = none := by
  unfold lookup at h
  cases hg : Props.get o k with
  | some w => rw [hg] at h; cases h
  | none => rfl

theorem get_none_of_lookup_inherited {α : Type} {o : Props String α} {k : String}
    (h : lookup o k = Lookup.inherited) : Props.get o k = none := by
  unfold lookup at h
  cases hg : Props.get o k with
  | some w => rw [hg] at h; cases h
  | none => rfl

theorem onJoinRoom_of_own {s : State} {roomId : String} {room : Room}
    (h : lookup s.rooms roomId = Lookup.own room) (socket : SocketId) (userId : String) :
    onJoinRoom s socket roomId userId = joinInto s s.rooms room socket roomId userId := by
  simp [onJoinRoom, h]

theorem onJoinRoom_of_undefined {s : State} {roomId : String}
    (h : lookup s.rooms roomId = Lookup.undefined) (socket : SocketId) (userId : String) :
    onJoinRoom s socket roomId userId =
      joinInto s (Props.put arrayIndex s.rooms roomId (newRoom roomId)) (newRoom roomId)
        socket roomId userId := by
  simp [onJoinRoom, h, lookup_of_get (Props.get_put_self arrayIndex s.rooms roomId _)]

theorem onJoinRoom_of_inherited {s : State} {roomId : String}
    (h : lookup s.rooms roomId = Lookup.inherited) (socket : SocketId) (userId : String) :
    onJoinRoom s socket roomId userId = { state := s, out := [], threw := true } := by
  simp [onJoinRoom, h]

theorem reachableBy_run {ok : State → ClientEvent → Prop} (hok : ∀ s e, ok s e) {s : State}
    (h : ReachableBy ok s) (es : List ClientEvent) : ReachableBy ok (run s es) := by
  induction es generalizing s with
  | nil => exact h
  | cons e es ih => exact ih (ReachableBy.step e h (hok s e))

theorem reachable_run (es : List ClientEvent) : Reachable (run State.empty es) :=
  reachableBy_run (fun _ _ => trivial) ReachableBy.init es

theorem mem_own_assign {u : Users} {userId : String} {entry : User} {q : String × User}
    (h : q ∈ (u.assign userId entry).own) : q ∈ u.own ∨ q = (userId, entry) := by
  unfold Users.assign at h
  split at h
  · exact Props.mem_replace h
  · split at h
    · exact Or.inl h
    · have := Props.mem_insertNew.mp h
      tauto

theorem mem_own_delete {u : Users} {userId : String} {q : String × User}
    (h : q ∈ (u.delete userId).own) : q ∈ u.own ∧ q.1 ≠ userId :=
  Props.mem_erase.mp h

theorem mem_rooms_onJoinRoom {s : State} {socket : SocketId} {roomId userId : String}
    {p : String × Room} (h : p ∈ (onJoinRoom s socket roomId userId).state.rooms) :
    p ∈ s.rooms ∨ p = (roomId, newRoom roomId) ∨
      ∃ room, (Props.get s.rooms roomId = some room ∨ room = newRoom roomId) ∧
        p = (roomId, { room with
          users := room.users.assign userId { id := userId, socketId := socket } }) := by
  cases hl : lookup s.rooms roomId with
  | own room =>
    rw [onJoinRoom_of_own hl] at h
    rcases Props.mem_replace h with h | h
    · exact Or.inl h
    · exact Or.inr (Or.inr ⟨room, Or.inl (get_of_lookup hl), h⟩)
  | inherited =>
    rw [onJoinRoom_of_inherited hl] at h
    exact Or.inl h
  | undefined =>
    rw [onJoinRoom_of_undefined hl] at h
    rcases Props.mem_replace h with h | h
    · rcases Props.mem_put h with h | h
      · exact Or.inl h
      · exact Or.inr (Or.inl h)
    · exact Or.inr (Or.inr ⟨newRoom roomId, Or.inr rfl, h⟩)

theorem onSignal_state (s : State) (socket : SocketId) (userId targetUserId signal : String) :
    (onSignal s socket userId targetUserId signal).state = s := by
  unfold onSignal
  split
  · rfl
  · split
    · rfl
    · rfl
    · split <;> rfl

theorem mem_rooms_onSendMessage {s : State} {message roomId userId timestamp uuid : String}
    {p : String × Room}
    (h : p ∈ (onSendMessage s message roomId userId timestamp uuid).state.rooms) :
    p ∈ s.rooms ∨ ∃ room, Props.get s.rooms roomId = some room ∧
      p = (roomId, { room with
        messages := pushBounded room.messages
          { id := uuid, userId := userId, message := message, timestamp := timestamp } }) := by
  unfold onSendMessage at h
  split at h
  · exact Or.inl h
  · exact Or.inl h
  · rename_i room hl
    rcases Props.mem_replace h with h | h
    · exact Or.inl h
    · exact Or.inr ⟨room, get_of_lookup hl, h⟩

theorem mem_rooms_onDisconnect {s : State} {socket : SocketId} {p : String × Room}
    (h : p ∈ (onDisconnect s socket).state.rooms) :
    p ∈ s.rooms ∨ ∃ info room, Props.get s.userSocketMap socket = some info ∧
      Props.get s.rooms info.roomId = some room ∧
      p = (info.roomId, { room with users := room.users.delete info.userId }) := by
  unfold onDisconnect at h
  split at h
  · exact Or.inl h
  · rename_i info hb
    split at h
    · exact Or.inl h
    · exact Or.inl h
    · rename_i room hl
      simp only at h
      split at h
      · rcases Props.mem_replace (Props.mem_erase.mp h).1 with h | h
        · exact Or.inl h
        · exact Or.inr ⟨info, room, hb, get_of_lookup hl, h⟩
      · rcases Props.mem_replace h with h | h
        · exact Or.inl h
        · exact Or.inr ⟨info, room, hb, get_of_lookup hl, h⟩

theorem length_pushBounded_le {messages : List Message} (newMessage : Message)
    (h : messages.length ≤ 100) : (pushBounded messages newMessage).length ≤ 100 := by
  unfold pushBounded
  simp only [List.length_append, List.length_singleton]
  split
  · simp only [List.length_tail, List.length_append, List.length_singleton]
    omega
  · simp only [List.length_append, List.length_singleton]
    omega

theorem historyBounded_handle {s : State} (e : ClientEvent) (h : HistoryBounded s) :
    HistoryBounded (handle s e).state := by
  intro p hp
  cases e with
  | connect socket => exact h p hp
  | joinRoom socket roomId userId =>
    rcases mem_rooms_onJoinRoom hp with hp | hp | ⟨room, hroom, hp⟩
    · exact h p hp
    · subst hp
      simp [newRoom]
    · subst hp
      rcases hroom with hroom | hroom
      · exact h (roomId, room) (Props.mem_of_get hroom)
      · subst hroom
        simp [newRoom]
  | signal socket userId targetUserId signal =>
    simp only [handle, onSignal_state] at hp
    exact h p hp
  | sendMessage socket message roomId userId timestamp uuid =>
    rcases mem_rooms_onSendMessage hp with hp | ⟨room, hroom, hp⟩
    · exact h p hp
    · subst hp
      exact length_pushBounded_le _ (h (roomId, room) (Props.mem_of_get hroom))
  | disconnect socket =>
    rcases mem_rooms_onDisconnect hp with hp | ⟨info, room, _, hroom, hp⟩
    · exact h p hp
    · subst hp
      exact h (info.roomId, room) (Props.mem_of_get hroom)

/-! ## C1: rooms without members -/

/-- C1, evaluated at the failing input.  From the start-up state, `join-room` with
`{ roomId: "r1", userId: "__proto__" }` on connection 1 creates room `r1` and leaves it in
the store with no key at all in its `users` object: the state is reachable and does not
satisfy "every room has at least one member". -/
theorem join_proto_user_leaves_room_without_members :
    Reachable (run State.empty [ClientEvent.joinRoom 1 "r1" "__proto__"]) ∧
    (run State.empty [ClientEvent.joinRoom 1 "r1" "__proto__"]).rooms =
      [("r1", { id := "r1"
                users := { own := [], proto := some { id := "__proto__", socketId := 1 } }
                messages := [] })] ∧
    ¬ RoomsHaveMembers (run State.empty [ClientEvent.joinRoom 1 "r1" "__proto__"]) := by
  refine ⟨reachable_run _, by decide, ?_⟩
  intro h
  exact h ("r1", { id := "r1"
                   users := { own := [], proto := some { id := "__proto__", socketId := 1 } }
                   messages := [] }) (by decide) (by decide)

/-! ## C4: bounded history -/

/-- C4.  In every state reachable from the start-up state by any finite sequence of
`join-room`, `signal`, `send-message` and `disconnect` events, every room of the store
holds at most 100 messages. -/
theorem reachable_history_bounded (s : State) (h : Reachable s) : HistoryBounded s := by
  induction h with
  | init =>
    intro p hp
    cases hp
  | step e _ _ ih => exact historyBounded_handle e ih

/-- C4 at a concrete run: two joins, a message and a disconnect. -/
theorem reachable_history_bounded_witness :
    Reachable (run State.empty
      [ClientEvent.joinRoom 1 "r1" "alice", ClientEvent.joinRoom 2 "r1" "bob",
       ClientEvent.sendMessage 1 "hello" "r1" "alice" "1700000000" "id-1",
       ClientEvent.disconnect 2]) ∧
    HistoryBounded (run State.empty
      [ClientEvent.joinRoom 1 "r1" "alice", ClientEvent.joinRoom 2 "r1" "bob",
       ClientEvent.sendMessage 1 "hello" "r1" "alice" "1700000000" "id-1",
       ClientEvent.disconnect 2]) :=
  ⟨reachable_run _, reachable_history_bounded _ (reachable_run _)⟩

/-! ## C5: the history is a sliding window -/

theorem pushBounded_of_lt {messages : List Message} (newMessage : Message)
    (h : messages.length < 100) : pushBounded messages newMessage = messages ++ [newMessage] := by
  unfold pushBounded
  simp only [List.length_append, List.length_singleton]
  rw [if_neg (by omega)]

theorem pushBounded_of_full {messages : List Message} (newMessage : Message)
    (h : messages.length = 100) :
    pushBounded messages newMessage = messages.tail ++ [newMessage] := by
  unfold pushBounded
  simp only [List.length_append, List.length_singleton]
  rw [if_pos (by omega)]
  cases messages with
  | nil => simp at h
  | cons a rest => rfl

theorem pushBounded_eq_lastN {messages : List Message} (newMessage : Message)
    (h : messages.length ≤ 100) :
    pushBounded messages newMessage = lastN 100 (messages ++ [newMessage]) := by
  rcases Nat.lt_or_ge messages.length 100 with hlt | hge
  · rw [pushBounded_of_lt _ hlt]
    unfold lastN
    have : (messages ++ [newMessage]).length - 100 = 0 := by
      simp only [List.length_append, List.length_singleton]
      omega
    rw [this, List.drop_zero]
  · have hfull : messages.length = 100 := by omega
    rw [pushBounded_of_full _ hfull]
    unfold lastN
    have : (messages ++ [newMessage]).length - 100 = 1 := by
      simp only [List.length_append, List.length_singleton]
      omega
    rw [this]
    cases messages with
    | nil => simp at hfull
    | cons a rest => rfl

theorem foldl_pushBounded (ms : List Message) :
    ∀ messages : List Message, messages.length ≤ 100 →
      ms.foldl pushBounded messages = lastN 100 (messages ++ ms) := by
  induction ms with
  | nil =>
    intro messages h
    unfold lastN
    have : (messages ++ []).length - 100 = 0 := by
      simp only [List.append_nil]
      omega
    rw [this, List.drop_zero, List.append_nil, List.foldl_nil]
  | cons m ms ih =>
    intro messages h
    rw [List.foldl_cons, ih _ (length_pushBounded_le m h)]
    rcases Nat.lt_or_ge messages.length 100 with hlt | hge
    · rw [pushBounded_of_lt _ hlt, List.append_assoc, List.singleton_append]
    · have hfull : messages.length = 100 := by omega
      rw [pushBounded_of_full _ hfull]
      cases messages with
      | nil => simp at hfull
      | cons a rest =>
        simp only [List.length_cons] at hfull
        unfold lastN
        have h1 : (((a :: rest).tail ++ [m]) ++ ms).length - 100 = ms.length := by
          simp only [List.tail_cons, List.length_append, List.length_singleton]
          omega
        have h2 : ((a :: rest) ++ m :: ms).length - 100 = ms.length + 1 := by
          simp only [List.length_append, List.length_cons]
          omega
        rw [h1, h2, List.tail_cons, List.append_assoc, List.singleton_append,
          List.cons_append, List.drop_succ_cons]

theorem onSendMessage_of_get {s : State} {roomId : String} {room : Room}
    (h : Props.get s.rooms roomId = some room) (message userId timestamp uuid : String) :
    onSendMessage s message roomId userId timestamp uuid =
      { state :=
          { s with
            rooms := Props.replace s.rooms roomId
              { room with
                messages := pushBounded room.messages (Message.mk uuid userId message timestamp) } }
        out := [Out.toRoom roomId (ServerEvent.newMessage (Message.mk uuid userId message timestamp))]
        threw := false } := by
  simp [onSendMessage, lookup_of_get h]

theorem get_rooms_onSendMessage {s : State} {roomId : String} {room : Room}
    (h : Props.get s.rooms roomId = some room) (message userId timestamp uuid : String) :
    Props.get (onSendMessage s message roomId userId timestamp uuid).state.rooms roomId =
      some { room with
        messages := pushBounded room.messages (Message.mk uuid userId message timestamp) } := by
  rw [onSendMessage_of_get h]
  exact Props.get_replace_self _ (Props.has_iff.mpr ⟨room, h⟩)

theorem get_rooms_run_sends (roomId : String) (sends : List (SocketId × Message)) :
    ∀ (s : State) (room : Room), Props.get s.rooms roomId = some room →
      Props.get (run s (sends.map (fun p => sendEvent roomId p.1 p.2))).rooms roomId =
        some { room with messages := (sends.map Prod.snd).foldl pushBounded room.messages } := by
  induction sends with
  | nil =>
    intro s room h
    exact h
  | cons p sends ih =>
    intro s room h
    simp only [List.map_cons, run, sendEvent, handle, List.foldl_cons]
    exact ih _ _ (get_rooms_onSendMessage h _ _ _ _)

/-- C5.  When room `roomId` exists with a history of at most 100 messages, handling
`send-message` for it leaves as its history the last 100 elements of the old history
followed by the new message: the old history followed by the new message when the old one
had fewer than 100 elements, the old history without its first element followed by the new
message otherwise.  Consequently, 101 messages sent to a room whose history is empty leave
exactly the last 100 of them, in their order. -/
theorem send_message_keeps_last_hundred (s : State) (roomId : String) (room : Room)
    (hroom : Props.get s.rooms roomId = some room) (hlen : room.messages.length ≤ 100) :
    (∀ message userId timestamp uuid : String,
      ∃ room1, Props.get (onSendMessage s message roomId userId timestamp uuid).state.rooms
          roomId = some room1 ∧
        room1.messages = lastN 100 (room.messages ++
          [{ id := uuid, userId := userId, message := message, timestamp := timestamp }]) ∧
        (room.messages.length < 100 → room1.messages = room.messages ++
          [{ id := uuid, userId := userId, message := message, timestamp := timestamp }]) ∧
        (room.messages.length = 100 → room1.messages = room.messages.tail ++
          [{ id := uuid, userId := userId, message := message, timestamp := timestamp }])) ∧
    (∀ sends : List (SocketId × Message), room.messages = [] → sends.length = 101 →
      ∃ room1, Props.get (run s (sends.map (fun p => sendEvent roomId p.1 p.2))).rooms
          roomId = some room1 ∧
        room1.messages = (sends.map Prod.snd).tail ∧ room1.messages.length = 100) := by
  constructor
  · intro message userId timestamp uuid
    refine ⟨_, get_rooms_onSendMessage hroom message userId timestamp uuid, ?_, ?_, ?_⟩
    · exact pushBounded_eq_lastN _ hlen
    · intro hlt
      exact pushBounded_of_lt _ hlt
    · intro hfull
      exact pushBounded_of_full _ hfull
  · intro sends hempty hsends
    refine ⟨_, get_rooms_run_sends roomId sends s room hroom, ?_, ?_⟩
    · simp only
      rw [hempty, foldl_pushBounded _ [] (by simp), List.nil_append]
      unfold lastN
      rw [List.length_map, hsends]
      cases sends with
      | nil => simp at hsends
      | cons p rest => rfl
    · simp only
      rw [hempty, foldl_pushBounded _ [] (by simp), List.nil_append]
      unfold lastN
      rw [List.length_drop, List.length_map, hsends]

/-- C5 at a concrete state: room `r1` with one member and one stored message receives a
second message. -/
theorem send_message_keeps_last_hundred_witness :
    Props.get (run State.empty [ClientEvent.joinRoom 1 "r1" "alice",
        ClientEvent.sendMessage 1 "hello" "r1" "alice" "1700000000" "id-1"]).rooms "r1" =
      some { id := "r1"
             users := { own := [("alice", { id := "alice", socketId := 1 })], proto := none }
             messages := [Message.mk "id-1" "alice" "hello" "1700000000"] } ∧
    ∃ room1, Props.get (onSendMessage
        (run State.empty [ClientEvent.joinRoom 1 "r1" "alice",
          ClientEvent.sendMessage 1 "hello" "r1" "alice" "1700000000" "id-1"])
        "again" "r1" "alice" "1700000001" "id-2").state.rooms "r1" = some room1 ∧
      room1.messages = [Message.mk "id-1" "alice" "hello" "1700000000",
        Message.mk "id-2" "alice" "again" "1700000001"] := by
  refine ⟨by decide, ?_⟩
  obtain ⟨room1, h1, _, h2, _⟩ := (send_message_keeps_last_hundred
    (run State.empty [ClientEvent.joinRoom 1 "r1" "alice",
      ClientEvent.sendMessage 1 "hello" "r1" "alice" "1700000000" "id-1"])
    "r1"
    { id := "r1"
      users := { own := [("alice", { id := "alice", socketId := 1 })], proto := none }
      messages := [Message.mk "id-1" "alice" "hello" "1700000000"] }
    (by decide) (by decide)).1 "again" "alice" "1700000001" "id-2"
  exact ⟨room1, h1, h2 (by decide)⟩

/-! ## C6: a repeated disconnect -/

theorem leaveAll_leaveAll (s : State) (socket : SocketId) :
    leaveAll (leaveAll s socket) socket = leaveAll s socket := by
  simp [leaveAll, List.filter_filter]

theorem onDisconnect_of_unbound {s : State} {socket : SocketId}
    (h : Props.get s.userSocketMap socket = none) :
    onDisconnect s socket = { state := s, out := [], threw := false } := by
  simp [onDisconnect, h]

theorem onDisconnect_unbinds_or_throws (s : State) (socket : SocketId) :
    ((onDisconnect s socket).state = s ∧ (onDisconnect s socket).out = []) ∨
    (Props.get (onDisconnect s socket).state.userSocketMap socket = none ∧
      (onDisconnect s socket).state.joined = s.joined) := by
  unfold onDisconnect
  split
  · exact Or.inl ⟨rfl, rfl⟩
  · split
    · exact Or.inr ⟨Props.get_erase_self _ _, rfl⟩
    · exact Or.inl ⟨rfl, rfl⟩
    · exact Or.inr ⟨Props.get_erase_self _ _, rfl⟩

/-- C6.  For every state and every connection, handling `disconnect` for the connection a
second time leaves the state the first handling produced (the same rooms store and the
same binding map), and the second handling emits no outbound event. -/
theorem disconnect_twice_same (s : State) (socket : SocketId) :
    (handle (handle s (ClientEvent.disconnect socket)).state
        (ClientEvent.disconnect socket)).state.rooms =
      (handle s (ClientEvent.disconnect socket)).state.rooms ∧
    (handle (handle s (ClientEvent.disconnect socket)).state
        (ClientEvent.disconnect socket)).state.userSocketMap =
      (handle s (ClientEvent.disconnect socket)).state.userSocketMap ∧
    (handle (handle s (ClientEvent.disconnect socket)).state
        (ClientEvent.disconnect socket)).out = [] := by
  simp only [handle]
  rcases onDisconnect_unbinds_or_throws (leaveAll s socket) socket with ⟨hs, ho⟩ | ⟨hg, hj⟩
  · rw [hs, leaveAll_leaveAll, hs]
    exact ⟨rfl, rfl, ho⟩
  · have hleave : leaveAll (onDisconnect (leaveAll s socket) socket).state socket =
        (onDisconnect (leaveAll s socket) socket).state := by
      have hj2 : (leaveAll (onDisconnect (leaveAll s socket) socket).state socket).joined =
          (onDisconnect (leaveAll s socket) socket).state.joined := by
        show List.filter _ (onDisconnect (leaveAll s socket) socket).state.joined = _
        rw [hj]
        simp only [leaveAll, List.filter_filter, Bool.and_self]
      cases hst : (onDisconnect (leaveAll s socket) socket).state with
      | mk rooms map joined =>
        rw [hst] at hj2
        simp only [leaveAll] at hj2 ⊢
        rw [hj2]
    rw [hleave, onDisconnect_of_unbound hg]
    exact ⟨rfl, rfl, rfl⟩

/-! ## C7: joining again under the same user id -/

theorem keys_own_assign_of_has {u : Users} {userId : String} (entry : User)
    (h : Props.has u.own userId = true) :
    Props.keys (u.assign userId entry).own = Props.keys u.own := by
  unfold Users.assign
  rw [if_pos h]
  exact Props.keys_replace _ _ _

theorem get_own_assign_of_has {u : Users} {userId : String} (entry : User)
    (h : Props.has u.own userId = true) :
    Props.get (u.assign userId entry).own userId = some entry := by
  unfold Users.assign
  rw [if_pos h]
  exact Props.get_replace_self _ h

theorem get_rooms_joinInto {s : State} {rooms0 : Props String Room} {room : Room}
    {roomId : String} (h : Props.get rooms0 roomId = some room) (socket : SocketId)
    (userId : String) :
    Props.get (joinInto s rooms0 room socket roomId userId).state.rooms roomId =
      some { room with
        users := room.users.assign userId { id := userId, socketId := socket } } :=
  Props.get_replace_self _ (Props.has_iff.mpr ⟨room, h⟩)

/-- C7.  When `userId` is already a member of room `roomId`, handling
`join-room { roomId, userId }` from any connection leaves the room with the same member
keys, hence the same number of members, and afterwards the member entry of `userId` maps
to the joining connection. -/
theorem join_again_keeps_member_count (s : State) (roomId userId : String) (room : Room)
    (socket : SocketId) (hroom : Props.get s.rooms roomId = some room)
    (hmember : Props.has room.users.own userId = true) :
    ∃ room1, Props.get (onJoinRoom s socket roomId userId).state.rooms roomId = some room1 ∧
      (Props.keys room1.users.own).length = (Props.keys room.users.own).length ∧
      Props.keys room1.users.own = Props.keys room.users.own ∧
      Props.get room1.users.own userId = some { id := userId, socketId := socket } := by
  rw [onJoinRoom_of_own (lookup_of_get hroom)]
  refine ⟨_, get_rooms_joinInto hroom socket userId, ?_, ?_, ?_⟩
  · simp only
    rw [keys_own_assign_of_has _ hmember]
  · exact keys_own_assign_of_has _ hmember
  · exact get_own_assign_of_has _ hmember

/-- C7 at a concrete state: `alice` joined `r1` on connection 1 and joins it again on
connection 2. -/
theorem join_again_keeps_member_count_witness :
    ∃ room1, Props.get (onJoinRoom (run State.empty [ClientEvent.joinRoom 1 "r1" "alice"])
        2 "r1" "alice").state.rooms "r1" = some room1 ∧
      (Props.keys room1.users.own).length = 1 ∧
      Props.get room1.users.own "alice" = some { id := "alice", socketId := 2 } := by
  obtain ⟨room1, h1, h2, _, h3⟩ := join_again_keeps_member_count
    (run State.empty [ClientEvent.joinRoom 1 "r1" "alice"]) "r1" "alice"
    { id := "r1"
      users := { own := [("alice", { id := "alice", socketId := 1 })], proto := none }
      messages := [] }
    2 (by decide) (by decide)
  exact ⟨room1, h1, h2, h3⟩

/-! ## C8, C10: the signaling relay -/

theorem find_id_of_get {own : Props String User} (hkeyed : ∀ q ∈ own, q.2.id = q.1)
    {targetUserId : String} {target : User} (h : Props.get own targetUserId = some target) :
    (Props.values own).find? (fun user => decide (user.id = targetUserId)) = some target := by
  induction own with
  | nil => simp [Props.get] at h
  | cons q rest ih =>
    obtain ⟨k, v⟩ := q
    have hid : v.id = k := hkeyed (k, v) (List.mem_cons_self _ _)
    rw [Props.get_cons] at h
    simp only [Props.values, List.map_cons, List.find?_cons]
    by_cases hk : k = targetUserId
    · rw [if_pos hk] at h
      cases h
      simp [hid, hk]
    · rw [if_neg hk] at h
      have hne : ¬ v.id = targetUserId := by rw [hid]; exact hk
      simp only [hne, decide_False]
      exact ih (fun q hq => hkeyed q (List.mem_cons_of_mem _ hq)) h

theorem find_id_of_get_none {own : Props String User} (hkeyed : ∀ q ∈ own, q.2.id = q.1)
    {targetUserId : String} (h : Props.get own targetUserId = none) :
    (Props.values own).find? (fun user => decide (user.id = targetUserId)) = none := by
  rw [List.find?_eq_none]
  intro user huser
  obtain ⟨q, hq, rfl⟩ := List.mem_map.mp huser
  have := Props.get_eq_none_iff.mp h q hq
  simp only [decide_eq_true_eq]
  rw [hkeyed q hq]
  exact this

theorem onSignal_of_member {s : State} {socket : SocketId} {info : UserInfo} {room : Room}
    {targetUserId : String} {target : User}
    (hbound : Props.get s.userSocketMap socket = some info)
    (hroom : Props.get s.rooms info.roomId = some room)
    (hkeyed : room.users.Keyed)
    (hmember : Props.get room.users.own targetUserId = some target)
    (userId signal : String) :
    onSignal s socket userId targetUserId signal =
      { state := s
        out := [Out.toRoom (socketRoom target.socketId) (ServerEvent.signal userId signal)]
        threw := false } := by
  simp [onSignal, hbound, lookup_of_get hroom, find_id_of_get hkeyed hmember]

/-- C8, evaluated at the failing input.  Connections 1, 2 and 3 are open.  `bob` on
connection 2 joins a room whose room id is his own socket id, and `alice` on connection 1
and `carol` on connection 3 join that room too.  The `signal` of `alice` for `bob` is
emitted once, with `io.to` and the socket id of connection 2, and the transport delivers
it to everybody in the transport room of that name: to connection 2, back to the sender on
connection 1, and to connection 3. -/
theorem signal_also_reaches_room_named_by_target_socket_id :
    Reachable (run State.empty [ClientEvent.connect 1, ClientEvent.connect 2,
      ClientEvent.connect 3, ClientEvent.joinRoom 2 (socketRoom 2) "bob",
      ClientEvent.joinRoom 1 (socketRoom 2) "alice",
      ClientEvent.joinRoom 3 (socketRoom 2) "carol"]) ∧
    Props.get (run State.empty [ClientEvent.connect 1, ClientEvent.connect 2,
      ClientEvent.connect 3, ClientEvent.joinRoom 2 (socketRoom 2) "bob",
      ClientEvent.joinRoom 1 (socketRoom 2) "alice",
      ClientEvent.joinRoom 3 (socketRoom 2) "carol"]).userSocketMap 1 =
        some { userId := "alice", roomId := socketRoom 2 } ∧
    (Props.get (run State.empty [ClientEvent.connect 1, ClientEvent.connect 2,
      ClientEvent.connect 3, ClientEvent.joinRoom 2 (socketRoom 2) "bob",
      ClientEvent.joinRoom 1 (socketRoom 2) "alice",
      ClientEvent.joinRoom 3 (socketRoom 2) "carol"]).rooms (socketRoom 2)).map
        (fun room => Props.get room.users.own "bob") =
      some (some { id := "bob", socketId := 2 }) ∧
    (onSignal (run State.empty [ClientEvent.connect 1, ClientEvent.connect 2,
      ClientEvent.connect 3, ClientEvent.joinRoom 2 (socketRoom 2) "bob",
      ClientEvent.joinRoom 1 (socketRoom 2) "alice",
      ClientEvent.joinRoom 3 (socketRoom 2) "carol"])
      1 "alice" "bob" "offer").out =
        [Out.toRoom (socketRoom 2) (ServerEvent.signal "alice" "offer")] ∧
    recipients (onSignal (run State.empty [ClientEvent.connect 1, ClientEvent.connect 2,
      ClientEvent.connect 3, ClientEvent.joinRoom 2 (socketRoom 2) "bob",
      ClientEvent.joinRoom 1 (socketRoom 2) "alice",
      ClientEvent.joinRoom 3 (socketRoom 2) "carol"])
      1 "alice" "bob" "offer").state
      (Out.toRoom (socketRoom 2) (ServerEvent.signal "alice" "offer")) = [2, 1, 3] :=
  ⟨reachable_run _, by decide, by decide, by decide, by decide⟩

theorem keyedById_handle {s : State} (e : ClientEvent) (h : KeyedById s) :
    KeyedById (handle s e).state := by
  intro p hp
  cases e with
  | connect socket => exact h p hp
  | joinRoom socket roomId userId =>
    rcases mem_rooms_onJoinRoom hp with hp | hp | ⟨room, hroom, hp⟩
    · exact h p hp
    · subst hp
      intro q hq
      cases hq
    · subst hp
      intro q hq
      rcases mem_own_assign hq with hq | hq
      · rcases hroom with hroom | hroom
        · exact h (roomId, room) (Props.mem_of_get hroom) q hq
        · subst hroom
          cases hq
      · subst hq
        rfl
  | signal socket userId targetUserId signal =>
    simp only [handle, onSignal_state] at hp
    exact h p hp
  | sendMessage socket message roomId userId timestamp uuid =>
    rcases mem_rooms_onSendMessage hp with hp | ⟨room, hroom, hp⟩
    · exact h p hp
    · subst hp
      exact h (roomId, room) (Props.mem_of_get hroom)
  | disconnect socket =>
    rcases mem_rooms_onDisconnect hp with hp | ⟨info, room, _, hroom, hp⟩
    · exact h p hp
    · subst hp
      intro q hq
      exact h (info.roomId, room) (Props.mem_of_get hroom) q (mem_own_delete hq).1

theorem reachable_keyedById {ok : State → ClientEvent → Prop} {s : State}
    (h : ReachableBy ok s) : KeyedById s := by
  induction h with
  | init =>
    intro p hp
    cases hp
  | step e _ _ ih => exact keyedById_handle e ih

/-- C10.  A `signal` is dropped (no outbound event, state as it was) when the sending
connection has no binding, when the room its binding names is not in the store, and when
`targetUserId` is not a member of that room (entries being stored under their own id, as
`join-room` writes them). -/
theorem signal_dropped_without_route (s : State) (socket : SocketId)
    (userId targetUserId signal : String)
    (h : Props.get s.userSocketMap socket = none ∨
      (∃ info, Props.get s.userSocketMap socket = some info ∧
        Props.get s.rooms info.roomId = none) ∨
      (∃ info room, Props.get s.userSocketMap socket = some info ∧
        Props.get s.rooms info.roomId = some room ∧ room.users.Keyed ∧
        Props.get room.users.own targetUserId = none)) :
    (onSignal s socket userId targetUserId signal).out = [] ∧
    (onSignal s socket userId targetUserId signal).state = s := by
  refine ⟨?_, onSignal_state s socket userId targetUserId signal⟩
  rcases h with h | ⟨info, hbound, hroom⟩ | ⟨info, room, hbound, hroom, hkeyed, hmember⟩
  · simp [onSignal, h]
  · unfold onSignal
    rw [hbound]
    simp only
    cases hl : lookup s.rooms info.roomId with
    | own room => rw [get_of_lookup hl] at hroom; cases hroom
    | inherited => rfl
    | undefined => rfl
  · simp [onSignal, hbound, lookup_of_get hroom, find_id_of_get_none hkeyed hmember]

/-- C10 at a concrete state: `alice` is alone in room `r1` and signals `bob`, who is not
a member. -/
theorem signal_dropped_without_route_witness :
    (onSignal (run State.empty [ClientEvent.joinRoom 1 "r1" "alice"])
      1 "alice" "bob" "offer").out = [] ∧
    (onSignal (run State.empty [ClientEvent.joinRoom 1 "r1" "alice"])
      1 "alice" "bob" "offer").state = run State.empty [ClientEvent.joinRoom 1 "r1" "alice"] :=
  signal_dropped_without_route (run State.empty [ClientEvent.joinRoom 1 "r1" "alice"])
    1 "alice" "bob" "offer"
    (Or.inr (Or.inr ⟨{ userId := "alice", roomId := "r1" },
      { id := "r1"
        users := { own := [("alice", { id := "alice", socketId := 1 })], proto := none }
        messages := [] },
      by decide, by decide, by decide, by decide⟩))

/-! ## What each handler does to the two stores, key by key -/

theorem get_own_assign_of_ne (u : Users) {userId k : String} (entry : User) (h : k ≠ userId) :
    Props.get (u.assign userId entry).own k = Props.get u.own k := by
  unfold Users.assign
  split
  · exact Props.get_replace_of_ne _ _ h
  · split
    · rfl
    · exact Props.get_insertNew_of_ne _ _ _ h

theorem get_own_assign_self (u : Users) {userId : String} (entry : User)
    (h : userId ≠ "__proto__") : Props.get (u.assign userId entry).own userId = some entry := by
  unfold Users.assign
  cases hh : Props.has u.own userId with
  | true => simpa using Props.get_replace_self entry hh
  | false => simpa [h] using Props.get_insertNew_self entry (Props.has_eq_false_iff.mp hh)

theorem eq_of_get_own_assign_self {u : Users} {userId : String} {entry x : User}
    (h : Props.get (u.assign userId entry).own userId = some x) : x = entry := by
  unfold Users.assign at h
  cases hh : Props.has u.own userId with
  | true =>
    rw [hh] at h
    simp only [if_true] at h
    rw [Props.get_replace_self entry hh] at h
    cases h
    rfl
  | false =>
    rw [hh] at h
    simp only [Bool.false_eq_true, if_false] at h
    split at h
    · rw [Props.has_eq_false_iff.mp hh] at h
      cases h
    · rw [Props.get_insertNew_self entry (Props.has_eq_false_iff.mp hh)] at h
      cases h
      rfl

theorem get_rooms_joinInto_of_ne (s : State) (rooms0 : Props String Room) (room : Room)
    (socket : SocketId) {roomId k : String} (userId : String) (h : k ≠ roomId) :
    Props.get (joinInto s rooms0 room socket roomId userId).state.rooms k = Props.get rooms0 k :=
  Props.get_replace_of_ne _ _ h

/-- The `join-room` handler, store by store: either `rooms[roomId]` is a member of
`Object.prototype` and the handler throws with nothing changed, or the room (the one in the
store, or a new one) gets the member entry, other rooms are untouched, and the connection
is bound. -/
theorem onJoinRoom_spec (s : State) (socket : SocketId) (roomId userId : String) :
    (lookup s.rooms roomId = Lookup.inherited ∧
      onJoinRoom s socket roomId userId = { state := s, out := [], threw := true }) ∨
    ∃ room0, (Props.get s.rooms roomId = some room0 ∨
        (Props.get s.rooms roomId = none ∧ room0 = newRoom roomId)) ∧
      Props.get (onJoinRoom s socket roomId userId).state.rooms roomId =
        some { room0 with
          users := room0.users.assign userId { id := userId, socketId := socket } } ∧
      (∀ k, k ≠ roomId →
        Props.get (onJoinRoom s socket roomId userId).state.rooms k = Props.get s.rooms k) ∧
      (onJoinRoom s socket roomId userId).state.userSocketMap =
        Props.put socketIndex s.userSocketMap socket { userId := userId, roomId := roomId } := by
  cases hl : lookup s.rooms roomId with
  | inherited => exact Or.inl ⟨rfl, onJoinRoom_of_inherited hl socket userId⟩
  | own room =>
    refine Or.inr ⟨room, Or.inl (get_of_lookup hl), ?_, ?_, ?_⟩
    · rw [onJoinRoom_of_own hl]
      exact get_rooms_joinInto (get_of_lookup hl) socket userId
    · intro k hk
      rw [onJoinRoom_of_own hl]
      exact get_rooms_joinInto_of_ne s _ _ socket userId hk
    · rw [onJoinRoom_of_own hl]
      rfl
  | undefined =>
    refine Or.inr ⟨newRoom roomId, Or.inr ⟨get_none_of_lookup_undefined hl, rfl⟩, ?_, ?_, ?_⟩
    · rw [onJoinRoom_of_undefined hl]
      exact get_rooms_joinInto (Props.get_put_self _ _ _ _) socket userId
    · intro k hk
      rw [onJoinRoom_of_undefined hl, get_rooms_joinInto_of_ne s _ _ socket userId hk]
      exact Props.get_put_of_ne _ _ _ hk
    · rw [onJoinRoom_of_undefined hl]
      rfl

theorem users_rooms_onSendMessage (s : State) (message roomId userId timestamp uuid k : String) :
    (Props.get (onSendMessage s message roomId userId timestamp uuid).state.rooms k).map
        Room.users = (Props.get s.rooms k).map Room.users := by
  cases hg : Props.get s.rooms roomId with
  | none =>
    have : (onSendMessage s message roomId userId timestamp uuid).state = s := by
      unfold onSendMessage
      cases hl : lookup s.rooms roomId with
      | own room => rw [get_of_lookup hl] at hg; cases hg
      | inherited => rfl
      | undefined => rfl
    rw [this]
  | some room =>
    by_cases hk : k = roomId
    · subst hk
      rw [get_rooms_onSendMessage hg, hg]
      rfl
    · rw [onSendMessage_of_get hg]
      simp only
      rw [Props.get_replace_of_ne _ _ hk]

theorem userSocketMap_onSendMessage (s : State) (message roomId userId timestamp uuid : String) :
    (onSendMessage s message roomId userId timestamp uuid).state.userSocketMap =
      s.userSocketMap := by
  unfold onSendMessage
  split <;> rfl

/-- The `disconnect` handler, store by store, for a bound connection whose room is in the
store: the member entry is deleted, the room is deleted when no key is left, other rooms
are untouched, and the binding is removed. -/
theorem onDisconnect_of_room {s : State} {socket : SocketId} {info : UserInfo} {room : Room}
    (hbound : Props.get s.userSocketMap socket = some info)
    (hroom : Props.get s.rooms info.roomId = some room) :
    Props.get (onDisconnect s socket).state.rooms info.roomId =
      (if (Props.keys (room.users.delete info.userId).own).length = 0 then none
       else some { room with users := room.users.delete info.userId }) ∧
    (∀ k, k ≠ info.roomId →
      Props.get (onDisconnect s socket).state.rooms k = Props.get s.rooms k) ∧
    (onDisconnect s socket).state.userSocketMap = Props.erase s.userSocketMap socket ∧
    (onDisconnect s socket).out =
      [Out.broadcast socket info.roomId (ServerEvent.userDisconnected info.userId)] := by
  have hhas : Props.has s.rooms info.roomId = true := Props.has_iff.mpr ⟨room, hroom⟩
  unfold onDisconnect
  rw [hbound]
  simp only [lookup_of_get hroom]
  refine ⟨?_, ?_, trivial, trivial⟩
  · split
    · exact Props.get_erase_self _ _
    · exact Props.get_replace_self _ hhas
  · intro k hk
    split
    · rw [Props.get_erase_of_ne _ hk, Props.get_replace_of_ne _ _ hk]
    · rw [Props.get_replace_of_ne _ _ hk]

theorem onDisconnect_of_undefined {s : State} {socket : SocketId} {info : UserInfo}
    (hbound : Props.get s.userSocketMap socket = some info)
    (hroom : lookup s.rooms info.roomId = Lookup.undefined) :
    onDisconnect s socket =
      { state := { s with userSocketMap := Props.erase s.userSocketMap socket }
        out := [], threw := false } := by
  simp [onDisconnect, hbound, hroom]

theorem onDisconnect_of_inherited {s : State} {socket : SocketId} {info : UserInfo}
    (hbound : Props.get s.userSocketMap socket = some info)
    (hroom : lookup s.rooms info.roomId = Lookup.inherited) :
    onDisconnect s socket = { state := s, out := [], threw := true } := by
  simp [onDisconnect, hbound, hroom]

theorem keys_length_ne_zero_of_has {o : Props String User} {k : String}
    (h : Props.has o k = true) : (Props.keys o).length ≠ 0 := by
  cases o with
  | nil => simp [Props.has, Props.get] at h
  | cons q rest => simp [Props.keys]

theorem get_of_get_erase {κ α : Type} [DecidableEq κ] {o : Props κ α} {k k' : κ} {v : α}
    (h : Props.get (Props.erase o k) k' = some v) : k' ≠ k ∧ Props.get o k' = some v := by
  by_cases hk : k' = k
  · subst hk
    rw [Props.get_erase_self] at h
    cases h
  · rw [Props.get_erase_of_ne _ hk] at h
    exact ⟨hk, h⟩

theorem has_own_assign_of_has {u : Users} {userId k : String} (entry : User)
    (hproto : userId ≠ "__proto__") (h : Props.has u.own k = true) :
    Props.has (u.assign userId entry).own k = true := by
  by_cases hk : k = userId
  · subst hk
    exact Props.has_iff.mpr ⟨entry, get_own_assign_self u entry hproto⟩
  · obtain ⟨v, hv⟩ := Props.has_iff.mp h
    exact Props.has_iff.mpr ⟨v, by rw [get_own_assign_of_ne u entry hk]; exact hv⟩

theorem userInfo_userId_ne {a b : UserInfo} (hne : a ≠ b) (hroom : a.roomId = b.roomId) :
    a.userId ≠ b.userId := by
  intro hu
  apply hne
  cases a
  cases b
  simp only at hu hroom
  rw [hu, hroom]

/-! ## C2: bindings and members -/

theorem bindings_handle {s : State} (e : ClientEvent) (hok : JoinsNewUser s e)
    (h1 : BindingsHaveMembers s) (h2 : BindingsDistinct s) :
    BindingsHaveMembers (handle s e).state ∧ BindingsDistinct (handle s e).state := by
  cases e with
  | connect socket => exact ⟨h1, h2⟩
  | joinRoom socket roomId userId =>
    obtain ⟨hproto, hnew0⟩ := hok
    have hnew : ∀ room, Props.get s.rooms roomId = some room →
        Props.get room.users.own userId = none := by
      intro room hroom
      rw [hroom] at hnew0
      exact hnew0
    simp only [handle]
    rcases onJoinRoom_spec s socket roomId userId with
      ⟨_, heq⟩ | ⟨room0, hroom0, hself, hother, hmap⟩
    · rw [heq]
      exact ⟨h1, h2⟩
    · constructor
      · intro d info hd
        rw [hmap] at hd
        by_cases hdc : d = socket
        · subst hdc
          rw [Props.get_put_self] at hd
          cases hd
          exact ⟨_, hself, Props.has_iff.mpr ⟨_, get_own_assign_self _ _ hproto⟩⟩
        · rw [Props.get_put_of_ne _ _ _ hdc] at hd
          obtain ⟨room1, hr1, hu1⟩ := h1 d info hd
          by_cases hrid : info.roomId = roomId
          · rw [hrid] at hr1 ⊢
            rcases hroom0 with hroom0 | ⟨hnone, _⟩
            · rw [hroom0] at hr1
              cases hr1
              exact ⟨_, hself, has_own_assign_of_has _ hproto hu1⟩
            · rw [hnone] at hr1
              cases hr1
          · exact ⟨room1, by rw [hother _ hrid]; exact hr1, hu1⟩
      · have hfresh : ∀ d, Props.get s.userSocketMap d ≠
            some { userId := userId, roomId := roomId } := by
          intro d hd
          obtain ⟨room1, hr1, hu1⟩ := h1 d _ hd
          have hnone := hnew room1 hr1
          rw [← Props.has_eq_false_iff] at hnone
          simp only at hu1
          rw [hnone] at hu1
          cases hu1
        intro d d1 info hd hd1
        rw [hmap] at hd hd1
        by_cases hdc : d = socket
        · by_cases hd1c : d1 = socket
          · rw [hdc, hd1c]
          · subst hdc
            rw [Props.get_put_self] at hd
            cases hd
            rw [Props.get_put_of_ne _ _ _ hd1c] at hd1
            exact absurd hd1 (hfresh d1)
        · by_cases hd1c : d1 = socket
          · subst hd1c
            rw [Props.get_put_self] at hd1
            cases hd1
            rw [Props.get_put_of_ne _ _ _ hdc] at hd
            exact absurd hd (hfresh d)
          · rw [Props.get_put_of_ne _ _ _ hdc] at hd
            rw [Props.get_put_of_ne _ _ _ hd1c] at hd1
            exact h2 d d1 info hd hd1
  | signal socket userId targetUserId signal =>
    simp only [handle, onSignal_state]
    exact ⟨h1, h2⟩
  | sendMessage socket message roomId userId timestamp uuid =>
    simp only [handle]
    constructor
    · intro d info hd
      rw [userSocketMap_onSendMessage] at hd
      obtain ⟨room1, hr1, hu1⟩ := h1 d info hd
      have hmap := users_rooms_onSendMessage s message roomId userId timestamp uuid info.roomId
      rw [hr1] at hmap
      obtain ⟨room2, hr2, hu2⟩ := Option.map_eq_some'.mp hmap
      exact ⟨room2, hr2, by rw [hu2]; exact hu1⟩
    · intro d d1 info hd hd1
      rw [userSocketMap_onSendMessage] at hd hd1
      exact h2 d d1 info hd hd1
  | disconnect socket =>
    simp only [handle]
    have g1 : BindingsHaveMembers (leaveAll s socket) := h1
    have g2 : BindingsDistinct (leaveAll s socket) := h2
    generalize leaveAll s socket = t at g1 g2
    cases hb : Props.get t.userSocketMap socket with
    | none =>
      rw [onDisconnect_of_unbound hb]
      exact ⟨g1, g2⟩
    | some info =>
      cases hl : lookup t.rooms info.roomId with
      | inherited =>
        rw [onDisconnect_of_inherited hb hl]
        exact ⟨g1, g2⟩
      | undefined =>
        rw [onDisconnect_of_undefined hb hl]
        constructor
        · intro d info1 hd
          exact g1 d info1 (get_of_get_erase hd).2
        · intro d d1 info1 hd hd1
          exact g2 d d1 info1 (get_of_get_erase hd).2 (get_of_get_erase hd1).2
      | own room =>
        have hroom := get_of_lookup hl
        obtain ⟨hself, hother, hmap, _⟩ := onDisconnect_of_room hb hroom
        constructor
        · intro d info1 hd
          rw [hmap] at hd
          obtain ⟨hdc, hd⟩ := get_of_get_erase hd
          obtain ⟨room1, hr1, hu1⟩ := g1 d info1 hd
          have hne : info1 ≠ info := by
            intro heq
            subst heq
            exact hdc (g2 d socket info1 hd hb)
          by_cases hrid : info1.roomId = info.roomId
          · have hu := userInfo_userId_ne hne hrid
            rw [hrid] at hr1 ⊢
            rw [hroom] at hr1
            cases hr1
            have hkept : Props.has (room.users.delete info.userId).own info1.userId = true := by
              obtain ⟨v, hv⟩ := Props.has_iff.mp hu1
              exact Props.has_iff.mpr ⟨v, by
                unfold Users.delete
                simp only
                rw [Props.get_erase_of_ne _ hu]
                exact hv⟩
            rw [if_neg (keys_length_ne_zero_of_has hkept)] at hself
            exact ⟨_, hself, hkept⟩
          · exact ⟨room1, by rw [hother _ hrid]; exact hr1, hu1⟩
        · intro d d1 info1 hd hd1
          rw [hmap] at hd hd1
          exact g2 d d1 info1 (get_of_get_erase hd).2 (get_of_get_erase hd1).2

theorem reachable_bindings {s : State} (h : ReachableBy JoinsNewUser s) :
    BindingsHaveMembers s ∧ BindingsDistinct s := by
  induction h with
  | init =>
    constructor
    · intro d info hd
      cases hd
    · intro d d1 info hd
      cases hd
  | step e _ hok ih => exact bindings_handle e hok ih.1 ih.2

/-- C2 fails as stated.  `alice` joins room `r1` on connection 1 and again on connection
2, then connection 2 disconnects: the member entry of `alice` is deleted and with it the
room, while connection 1 is still bound to `alice` in `r1`. -/
theorem binding_outlives_room_after_second_join :
    Reachable (run State.empty [ClientEvent.joinRoom 1 "r1" "alice",
      ClientEvent.joinRoom 2 "r1" "alice", ClientEvent.disconnect 2]) ∧
    Props.get (run State.empty [ClientEvent.joinRoom 1 "r1" "alice",
      ClientEvent.joinRoom 2 "r1" "alice", ClientEvent.disconnect 2]).userSocketMap 1 =
        some { userId := "alice", roomId := "r1" } ∧
    Props.get (run State.empty [ClientEvent.joinRoom 1 "r1" "alice",
      ClientEvent.joinRoom 2 "r1" "alice", ClientEvent.disconnect 2]).rooms "r1" = none ∧
    ¬ BindingsHaveMembers (run State.empty [ClientEvent.joinRoom 1 "r1" "alice",
      ClientEvent.joinRoom 2 "r1" "alice", ClientEvent.disconnect 2]) := by
  refine ⟨reachable_run _, by decide, by decide, ?_⟩
  intro h
  obtain ⟨room, hroom, _⟩ := h 1 { userId := "alice", roomId := "r1" } (by decide)
  have hnone : Props.get (run State.empty [ClientEvent.joinRoom 1 "r1" "alice",
      ClientEvent.joinRoom 2 "r1" "alice", ClientEvent.disconnect 2]).rooms "r1" = none := by
    decide
  simp only [hnone] at hroom
  cases hroom

/-- C2, amended.  In every state reachable from the start-up state by `join-room`,
`signal`, `send-message` and `disconnect` events in which every `join-room` names a user id
that is not a member of the room at that moment (and is not the key `__proto__`), every
binding of `userSocketMap` has a matching member: its room is in the store and its user id
is a key of that room's `users`. -/
theorem bindings_have_members_when_user_ids_unique (s : State)
    (h : ReachableBy JoinsNewUser s) : BindingsHaveMembers s :=
  (reachable_bindings h).1

/-- C2 amended, at a concrete run: two users join a room on two connections and one of
them leaves. -/
theorem bindings_have_members_when_user_ids_unique_witness :
    ReachableBy JoinsNewUser (handle (handle (handle State.empty
      (ClientEvent.joinRoom 1 "r1" "alice")).state
      (ClientEvent.joinRoom 2 "r1" "bob")).state
      (ClientEvent.disconnect 1)).state ∧
    BindingsHaveMembers (handle (handle (handle State.empty
      (ClientEvent.joinRoom 1 "r1" "alice")).state
      (ClientEvent.joinRoom 2 "r1" "bob")).state
      (ClientEvent.disconnect 1)).state := by
  have hreach : ReachableBy JoinsNewUser (handle (handle (handle State.empty
      (ClientEvent.joinRoom 1 "r1" "alice")).state
      (ClientEvent.joinRoom 2 "r1" "bob")).state
      (ClientEvent.disconnect 1)).state :=
    ReachableBy.step (ClientEvent.disconnect 1)
      (ReachableBy.step (ClientEvent.joinRoom 2 "r1" "bob")
        (ReachableBy.step (ClientEvent.joinRoom 1 "r1" "alice") ReachableBy.init
          (by decide))
        (by decide))
      trivial
  exact ⟨hreach, bindings_have_members_when_user_ids_unique _ hreach⟩

/-! ## C3: members and bindings -/

theorem members_handle {s : State} (e : ClientEvent) (hok : JoinsUnbound s e)
    (h : MembersHaveBindings s) : MembersHaveBindings (handle s e).state := by
  cases e with
  | connect socket => exact h
  | joinRoom socket roomId userId =>
    have hunbound : Props.get s.userSocketMap socket = none := hok
    simp only [handle]
    rcases onJoinRoom_spec s socket roomId userId with
      ⟨_, heq⟩ | ⟨room0, hroom0, hself, hother, hmap⟩
    · rw [heq]
      exact h
    · intro rid room1 hr1 uid entry hentry
      rw [hmap]
      have hold : ∀ room, Props.get s.rooms rid = some room →
          Props.get room.users.own uid = some entry →
          Props.get (Props.put socketIndex s.userSocketMap socket
            { userId := userId, roomId := roomId }) entry.socketId =
            some { userId := uid, roomId := rid } := by
        intro room hroom hmem
        have hb := h rid room hroom uid entry hmem
        have hne : entry.socketId ≠ socket := by
          intro heq
          rw [heq, hunbound] at hb
          cases hb
        rw [Props.get_put_of_ne _ _ _ hne]
        exact hb
      by_cases hrid : rid = roomId
      · subst hrid
        rw [hself] at hr1
        cases hr1
        simp only at hentry
        by_cases huid : uid = userId
        · subst huid
          have := eq_of_get_own_assign_self hentry
          subst this
          exact Props.get_put_self _ _ _ _
        · rw [get_own_assign_of_ne _ _ huid] at hentry
          rcases hroom0 with hroom0 | ⟨_, hnew⟩
          · exact hold room0 hroom0 hentry
          · subst hnew
            cases hentry
      · rw [hother _ hrid] at hr1
        exact hold room1 hr1 hentry
  | signal socket userId targetUserId signal =>
    simp only [handle, onSignal_state]
    exact h
  | sendMessage socket message roomId userId timestamp uuid =>
    simp only [handle]
    intro rid room1 hr1 uid entry hentry
    rw [userSocketMap_onSendMessage]
    have hmap := users_rooms_onSendMessage s message roomId userId timestamp uuid rid
    rw [hr1] at hmap
    obtain ⟨room2, hr2, hu2⟩ := Option.map_eq_some'.mp hmap.symm
    exact h rid room2 hr2 uid entry (by rw [hu2]; exact hentry)
  | disconnect socket =>
    simp only [handle]
    have g : MembersHaveBindings (leaveAll s socket) := h
    generalize leaveAll s socket = t at g
    cases hb : Props.get t.userSocketMap socket with
    | none =>
      rw [onDisconnect_of_unbound hb]
      exact g
    | some info =>
      cases hl : lookup t.rooms info.roomId with
      | inherited =>
        rw [onDisconnect_of_inherited hb hl]
        exact g
      | undefined =>
        rw [onDisconnect_of_undefined hb hl]
        intro rid room1 hr1 uid entry hentry
        have hbind := g rid room1 hr1 uid entry hentry
        have hne : entry.socketId ≠ socket := by
          intro heq
          rw [heq, hb] at hbind
          cases hbind
          rw [get_none_of_lookup_undefined hl] at hr1
          cases hr1
        show Props.get (Props.erase t.userSocketMap socket) entry.socketId = _
        rw [Props.get_erase_of_ne _ hne]
        exact hbind
      | own room =>
        have hroom := get_of_lookup hl
        obtain ⟨hself, hother, hmap, _⟩ := onDisconnect_of_room hb hroom
        intro rid room1 hr1 uid entry hentry
        rw [hmap]
        by_cases hrid : rid = info.roomId
        · subst hrid
          rw [hself] at hr1
          split at hr1
          · cases hr1
          · cases hr1
            obtain ⟨huid, hentry⟩ := get_of_get_erase hentry
            have hbind := g info.roomId room hroom uid entry hentry
            have hne : entry.socketId ≠ socket := by
              intro heq
              rw [heq, hb] at hbind
              apply huid
              have := congrArg UserInfo.userId (Option.some.inj hbind)
              exact this.symm
            rw [Props.get_erase_of_ne _ hne]
            exact hbind
        · rw [hother _ hrid] at hr1
          have hbind := g rid room1 hr1 uid entry hentry
          have hne : entry.socketId ≠ socket := by
            intro heq
            rw [heq, hb] at hbind
            cases hbind
            exact hrid rfl
          rw [Props.get_erase_of_ne _ hne]
          exact hbind

/-- C3 fails as stated.  Connection 1 joins room `r1` as `alice` and then room `r2` as
`alice`: the member entry of `alice` in `r1` still holds connection 1, whose binding now
names `r2`. -/
theorem member_entry_outlives_binding_after_second_join :
    Reachable (run State.empty [ClientEvent.joinRoom 1 "r1" "alice",
      ClientEvent.joinRoom 1 "r2" "alice"]) ∧
    (Props.get (run State.empty [ClientEvent.joinRoom 1 "r1" "alice",
      ClientEvent.joinRoom 1 "r2" "alice"]).rooms "r1").map
        (fun room => Props.get room.users.own "alice") =
      some (some { id := "alice", socketId := 1 }) ∧
    Props.get (run State.empty [ClientEvent.joinRoom 1 "r1" "alice",
      ClientEvent.joinRoom 1 "r2" "alice"]).userSocketMap 1 =
        some { userId := "alice", roomId := "r2" } ∧
    ¬ MembersHaveBindings (run State.empty [ClientEvent.joinRoom 1 "r1" "alice",
      ClientEvent.joinRoom 1 "r2" "alice"]) := by
  refine ⟨reachable_run _, by decide, by decide, ?_⟩
  intro h
  have hbind := h "r1"
    { id := "r1"
      users := { own := [("alice", { id := "alice", socketId := 1 })], proto := none }
      messages := [] }
    (by decide) "alice" { id := "alice", socketId := 1 } (by decide)
  exact absurd hbind (by decide)

/-- C3, amended.  In every state reachable from the start-up state by `join-room`,
`signal`, `send-message` and `disconnect` events in which every `join-room` arrives on a
connection that has no binding at that moment, for every room and every member entry
`userId -> connection` of it, `userSocketMap` holds a binding for that connection, and the
binding is exactly `{ userId, roomId }`. -/
theorem members_have_bindings_when_connections_join_once (s : State)
    (h : ReachableBy JoinsUnbound s) : MembersHaveBindings s := by
  induction h with
  | init =>
    intro rid room hroom
    cases hroom
  | step e _ hok ih => exact members_handle e hok ih

/-- C3 amended, at a concrete run: connections 1, 2 and 3 are open; `alice` joins `r1` on
connection 1, `bob` on connection 2, and `alice` joins again on connection 3.  The room
then holds the entries `alice -> 3` and `bob -> 2`, and connections 3 and 2 are bound to
exactly these users in `r1`. -/
theorem members_have_bindings_when_connections_join_once_witness :
    ReachableBy JoinsUnbound (run State.empty [ClientEvent.connect 1, ClientEvent.connect 2,
      ClientEvent.connect 3, ClientEvent.joinRoom 1 "r1" "alice",
      ClientEvent.joinRoom 2 "r1" "bob", ClientEvent.joinRoom 3 "r1" "alice"]) ∧
    MembersHaveBindings (run State.empty [ClientEvent.connect 1, ClientEvent.connect 2,
      ClientEvent.connect 3, ClientEvent.joinRoom 1 "r1" "alice",
      ClientEvent.joinRoom 2 "r1" "bob", ClientEvent.joinRoom 3 "r1" "alice"]) ∧
    (Props.get (run State.empty [ClientEvent.connect 1, ClientEvent.connect 2,
      ClientEvent.connect 3, ClientEvent.joinRoom 1 "r1" "alice",
      ClientEvent.joinRoom 2 "r1" "bob", ClientEvent.joinRoom 3 "r1" "alice"]).rooms
      "r1").map (fun room => room.users.own) =
        some [("alice", { id := "alice", socketId := 3 }),
              ("bob", { id := "bob", socketId := 2 })] ∧
    Props.get (run State.empty [ClientEvent.connect 1, ClientEvent.connect 2,
      ClientEvent.connect 3, ClientEvent.joinRoom 1 "r1" "alice",
      ClientEvent.joinRoom 2 "r1" "bob", ClientEvent.joinRoom 3 "r1" "alice"]).userSocketMap
      3 = some { userId := "alice", roomId := "r1" } ∧
    Props.get (run State.empty [ClientEvent.connect 1, ClientEvent.connect 2,
      ClientEvent.connect 3, ClientEvent.joinRoom 1 "r1" "alice",
      ClientEvent.joinRoom 2 "r1" "bob", ClientEvent.joinRoom 3 "r1" "alice"]).userSocketMap
      2 = some { userId := "bob", roomId := "r1" } := by
  have hreach : ReachableBy JoinsUnbound (run State.empty [ClientEvent.connect 1,
      ClientEvent.connect 2, ClientEvent.connect 3, ClientEvent.joinRoom 1 "r1" "alice",
      ClientEvent.joinRoom 2 "r1" "bob", ClientEvent.joinRoom 3 "r1" "alice"]) :=
    ReachableBy.step (ClientEvent.joinRoom 3 "r1" "alice")
      (ReachableBy.step (ClientEvent.joinRoom 2 "r1" "bob")
        (ReachableBy.step (ClientEvent.joinRoom 1 "r1" "alice")
          (ReachableBy.step (ClientEvent.connect 3)
            (ReachableBy.step (ClientEvent.connect 2)
              (ReachableBy.step (ClientEvent.connect 1) ReachableBy.init trivial)
              trivial)
            trivial)
          (by decide))
        (by decide))
      (by decide)
  exact ⟨hreach, members_have_bindings_when_connections_join_once _ hreach,
    by decide, by decide, by decide⟩

/-! ## C16: the message object -/

theorem getLast?_pushBounded (messages : List Message) (newMessage : Message) :
    (pushBounded messages newMessage).getLast? = some newMessage := by
  unfold pushBounded
  cases messages with
  | nil => simp
  | cons a rest =>
    simp only [List.cons_append, List.tail_cons]
    split
    · exact List.getLast?_concat rest
    · exact List.getLast?_concat (a :: rest)

/-- C16 fails as stated.  With rooms `r1` and `r2` in the store, a `send-message` naming
`r1` and one naming `r2`, equal in every other field, build the same message object: the
object has the fields `id`, `userId`, `message` and `timestamp` only, and the room id of
the event cannot be read from it. -/
theorem message_object_same_for_two_rooms :
    (onSendMessage (run State.empty [ClientEvent.joinRoom 1 "r1" "alice",
        ClientEvent.joinRoom 2 "r2" "bob"]) "hello" "r1" "alice" "1700000000" "id-1").out =
      [Out.toRoom "r1" (ServerEvent.newMessage
        { id := "id-1", userId := "alice", message := "hello", timestamp := "1700000000" })] ∧
    (onSendMessage (run State.empty [ClientEvent.joinRoom 1 "r1" "alice",
        ClientEvent.joinRoom 2 "r2" "bob"]) "hello" "r2" "alice" "1700000000" "id-1").out =
      [Out.toRoom "r2" (ServerEvent.newMessage
        { id := "id-1", userId := "alice", message := "hello", timestamp := "1700000000" })] ∧
    ¬ ∃ roomIdOf : Message → String,
      roomIdOf { id := "id-1", userId := "alice", message := "hello"
                 timestamp := "1700000000" } = "r1" ∧
      roomIdOf { id := "id-1", userId := "alice", message := "hello"
                 timestamp := "1700000000" } = "r2" := by
  refine ⟨by decide, by decide, ?_⟩
  rintro ⟨roomIdOf, h1, h2⟩
  rw [h1] at h2
  exact absurd h2 (by decide)

/-- C16, amended.  For every `send-message { message, roomId, userId, timestamp }` naming
a room of the store, the message that is appended to the room's history and broadcast as
`new-message` to the transport room `roomId` has the id `uuidv4()` generated and carries
the `userId`, the `message` text and the `timestamp` of the inbound payload, each
unchanged; it has no room id field. -/
theorem message_built_from_payload (s : State) (room : Room)
    (message roomId userId timestamp uuid : String)
    (hroom : Props.get s.rooms roomId = some room) :
    (onSendMessage s message roomId userId timestamp uuid).out =
      [Out.toRoom roomId (ServerEvent.newMessage
        { id := uuid, userId := userId, message := message, timestamp := timestamp })] ∧
    ∃ room1, Props.get (onSendMessage s message roomId userId timestamp uuid).state.rooms
        roomId = some room1 ∧
      room1.messages.getLast? =
        some { id := uuid, userId := userId, message := message, timestamp := timestamp } := by
  constructor
  · rw [onSendMessage_of_get hroom]
  · exact ⟨_, get_rooms_onSendMessage hroom message userId timestamp uuid,
      getLast?_pushBounded _ _⟩

/-- C16 amended, at a concrete state: `alice` sends `hello` to her room `r1`. -/
theorem message_built_from_payload_witness :
    (onSendMessage (run State.empty [ClientEvent.joinRoom 1 "r1" "alice"])
      "hello" "r1" "alice" "1700000000" "id-1").out =
      [Out.toRoom "r1" (ServerEvent.newMessage
        { id := "id-1", userId := "alice", message := "hello", timestamp := "1700000000" })] :=
  (message_built_from_payload (run State.empty [ClientEvent.joinRoom 1 "r1" "alice"])
    { id := "r1"
      users := { own := [("alice", { id := "alice", socketId := 1 })], proto := none }
      messages := [] }
    "hello" "r1" "alice" "1700000000" "id-1" (by decide)).1

/-! ## C17: a message for a room that is not in the store -/

/-- A `send-message` whose room id reads as `undefined` from the store is dropped: nothing
is emitted, nothing changes, nothing is thrown. -/
theorem onSendMessage_of_undefined {s : State} {roomId : String}
    (h : lookup s.rooms roomId = Lookup.undefined) (message userId timestamp uuid : String) :
    onSendMessage s message roomId userId timestamp uuid =
      { state := s, out := [], threw := false } := by
  simp [onSendMessage, h]

/-- C17, evaluated at the failing input.  `alice` is in room `r1` on connection 1 and no
room named `constructor` is in the store; a `send-message` with `roomId: "constructor"`
is not dropped by the guard: the handler goes on to `rooms[roomId].messages.push` and ends
with an uncaught `TypeError`. -/
theorem send_message_to_inherited_room_name_throws :
    Props.get (run State.empty [ClientEvent.connect 1,
      ClientEvent.joinRoom 1 "r1" "alice"]).rooms "constructor" = none ∧
    lookup (run State.empty [ClientEvent.connect 1,
      ClientEvent.joinRoom 1 "r1" "alice"]).rooms "constructor" = Lookup.inherited ∧
    (onSendMessage (run State.empty [ClientEvent.connect 1,
      ClientEvent.joinRoom 1 "r1" "alice"])
      "hello" "constructor" "alice" "1700000000" "id-1").threw = true ∧
    (onSendMessage (run State.empty [ClientEvent.connect 1,
      ClientEvent.joinRoom 1 "r1" "alice"])
      "hello" "constructor" "alice" "1700000000" "id-1").out = [] :=
  ⟨by decide, by decide, by decide, by decide⟩

/-! ## C18, C19: what a disconnect removes -/

theorem erase_replace {κ α : Type} [DecidableEq κ] (o : Props κ α) (k : κ) (v : α) :
    Props.erase (Props.replace o k v) k = Props.erase o k := by
  induction o with
  | nil => rfl
  | cons q rest ih =>
    obtain ⟨k0, v0⟩ := q
    unfold Props.replace
    by_cases hk : k0 = k
    · rw [if_pos hk, Props.erase_cons, Props.erase_cons, if_pos rfl, if_pos hk]
    · rw [if_neg hk, Props.erase_cons, Props.erase_cons, if_neg hk, if_neg hk, ih]

theorem rooms_onDisconnect_of_room {s : State} {socket : SocketId} {info : UserInfo}
    {room : Room} (hbound : Props.get s.userSocketMap socket = some info)
    (hroom : Props.get s.rooms info.roomId = some room) :
    (onDisconnect s socket).state.rooms =
      if (Props.keys (room.users.delete info.userId).own).length = 0 then
        Props.erase s.rooms info.roomId
      else Props.replace s.rooms info.roomId
        { room with users := room.users.delete info.userId } := by
  unfold onDisconnect
  rw [hbound]
  simp only [lookup_of_get hroom]
  split
  · exact erase_replace _ _ _
  · rfl

theorem erase_of_keys_singleton {own : Props String User} {userId : String}
    (h : Props.keys own = [userId]) : Props.erase own userId = [] := by
  cases own with
  | nil => rfl
  | cons q rest =>
    simp only [Props.keys, List.map_cons, List.cons.injEq, List.map_eq_nil_iff] at h
    obtain ⟨hq, hrest⟩ := h
    subst hrest
    rw [Props.erase_cons, if_pos hq]
    rfl

theorem apiRooms_erase (rooms : Props String Room) (roomId : String) :
    apiRooms (Props.erase rooms roomId) =
      (apiRooms rooms).filter (fun e => decide (e.id ≠ roomId)) := by
  unfold apiRooms Props.erase
  rw [List.filter_map]
  rfl

/-- C18.  When connection `socket` is bound to `(userId, roomId)` and the `users` of that
room has the single key `userId`, then after handling `disconnect` for `socket` the
directory (`GET /api/rooms`) has no element with id `roomId`, the connection has no
binding, and the directory is the earlier one without the elements of id `roomId`: every
other room is listed as before, with the same member count. -/
theorem sole_member_disconnect_clears_directory (s : State) (socket : SocketId)
    (info : UserInfo) (room : Room)
    (hbound : Props.get s.userSocketMap socket = some info)
    (hroom : Props.get s.rooms info.roomId = some room)
    (hsole : Props.keys room.users.own = [info.userId]) :
    (∀ e ∈ apiRooms (handle s (ClientEvent.disconnect socket)).state.rooms,
      e.id ≠ info.roomId) ∧
    Props.get (handle s (ClientEvent.disconnect socket)).state.userSocketMap socket = none ∧
    apiRooms (handle s (ClientEvent.disconnect socket)).state.rooms =
      (apiRooms s.rooms).filter (fun e => decide (e.id ≠ info.roomId)) := by
  have hb : Props.get (leaveAll s socket).userSocketMap socket = some info := hbound
  have hr : Props.get (leaveAll s socket).rooms info.roomId = some room := hroom
  have hempty : (Props.keys (room.users.delete info.userId).own).length = 0 := by
    unfold Users.delete
    simp only
    rw [erase_of_keys_singleton hsole]
    rfl
  have hrooms : (handle s (ClientEvent.disconnect socket)).state.rooms =
      Props.erase s.rooms info.roomId := by
    simp only [handle]
    rw [rooms_onDisconnect_of_room hb hr, if_pos hempty]
    rfl
  have hmap := (onDisconnect_of_room hb hr).2.2.1
  refine ⟨?_, ?_, ?_⟩
  · rw [hrooms, apiRooms_erase]
    intro e he
    simpa using (List.mem_filter.mp he).2
  · simp only [handle]
    rw [hmap]
    exact Props.get_erase_self _ _
  · rw [hrooms, apiRooms_erase]

/-- C18 at a concrete state: `alice` is alone in `r1` on connection 1, `bob` is in `r2`,
and connection 1 disconnects. -/
theorem sole_member_disconnect_clears_directory_witness :
    apiRooms (run State.empty [ClientEvent.joinRoom 1 "r1" "alice",
      ClientEvent.joinRoom 2 "r2" "bob"]).rooms =
        [{ id := "r1", users := 1 }, { id := "r2", users := 1 }] ∧
    apiRooms (handle (run State.empty [ClientEvent.joinRoom 1 "r1" "alice",
      ClientEvent.joinRoom 2 "r2" "bob"]) (ClientEvent.disconnect 1)).state.rooms =
        [{ id := "r2", users := 1 }] := by
  refine ⟨by decide, ?_⟩
  rw [(sole_member_disconnect_clears_directory
    (run State.empty [ClientEvent.joinRoom 1 "r1" "alice", ClientEvent.joinRoom 2 "r2" "bob"])
    1 { userId := "alice", roomId := "r1" }
    { id := "r1"
      users := { own := [("alice", { id := "alice", socketId := 1 })], proto := none }
      messages := [] }
    (by decide) (by decide) (by decide)).2.2]
  decide

/-- C19.  When connection `socket` is bound to `(userId, roomId)` and the room is in the
store, handling `disconnect` for `socket` deletes the key `userId` from the room's `users`
whatever connection the entry under it holds, deletes the room when no key is left and
keeps the room with the remaining entries otherwise; afterwards the room, if still in the
store, has no entry under `userId`, and the connection has no binding. -/
theorem disconnect_removes_entry_of_bound_user (s : State) (socket : SocketId)
    (info : UserInfo) (room : Room)
    (hbound : Props.get s.userSocketMap socket = some info)
    (hroom : Props.get s.rooms info.roomId = some room) :
    Props.get (handle s (ClientEvent.disconnect socket)).state.userSocketMap socket = none ∧
    ((Props.keys (room.users.delete info.userId).own).length = 0 →
      Props.get (handle s (ClientEvent.disconnect socket)).state.rooms info.roomId = none) ∧
    ((Props.keys (room.users.delete info.userId).own).length ≠ 0 →
      Props.get (handle s (ClientEvent.disconnect socket)).state.rooms info.roomId =
        some { room with users := room.users.delete info.userId }) ∧
    Props.get (room.users.delete info.userId).own info.userId = none ∧
    (∀ room1,
      Props.get (handle s (ClientEvent.disconnect socket)).state.rooms info.roomId =
        some room1 → Props.get room1.users.own info.userId = none) := by
  have hb : Props.get (leaveAll s socket).userSocketMap socket = some info := hbound
  have hr : Props.get (leaveAll s socket).rooms info.roomId = some room := hroom
  obtain ⟨hself, _, hmap, _⟩ := onDisconnect_of_room hb hr
  have hgone : Props.get (room.users.delete info.userId).own info.userId = none :=
    Props.get_erase_self _ _
  simp only [handle]
  refine ⟨?_, ?_, ?_, hgone, ?_⟩
  · rw [hmap]
    exact Props.get_erase_self _ _
  · intro h0
    rw [hself, if_pos h0]
  · intro h0
    rw [hself, if_neg h0]
  · intro room1 h1
    rw [hself] at h1
    split at h1
    · cases h1
    · cases h1
      exact hgone

/-- C19 at a concrete state: `alice` joined `r1` on connection 1 and then on connection
2, so her entry holds connection 2; connection 1, still bound to her, disconnects. -/
theorem disconnect_removes_entry_of_bound_user_witness :
    (Props.get (run State.empty [ClientEvent.joinRoom 1 "r1" "alice",
      ClientEvent.joinRoom 2 "r1" "alice"]).rooms "r1").map
        (fun room => Props.get room.users.own "alice") =
      some (some { id := "alice", socketId := 2 }) ∧
    Props.get (handle (run State.empty [ClientEvent.joinRoom 1 "r1" "alice",
      ClientEvent.joinRoom 2 "r1" "alice"]) (ClientEvent.disconnect 1)).state.userSocketMap
        1 = none ∧
    Props.get (handle (run State.empty [ClientEvent.joinRoom 1 "r1" "alice",
      ClientEvent.joinRoom 2 "r1" "alice"]) (ClientEvent.disconnect 1)).state.rooms "r1" =
        none :=
  ⟨by decide,
    (disconnect_removes_entry_of_bound_user
      (run State.empty [ClientEvent.joinRoom 1 "r1" "alice",
        ClientEvent.joinRoom 2 "r1" "alice"])
      1 { userId := "alice", roomId := "r1" }
      { id := "r1"
        users := { own := [("alice", { id := "alice", socketId := 2 })], proto := none }
        messages := [] }
      (by decide) (by decide)).1,
    (disconnect_removes_entry_of_bound_user
      (run State.empty [ClientEvent.joinRoom 1 "r1" "alice",
        ClientEvent.joinRoom 2 "r1" "alice"])
      1 { userId := "alice", roomId := "r1" }
      { id := "r1"
        users := { own := [("alice", { id := "alice", socketId := 2 })], proto := none }
        messages := [] }
      (by decide) (by decide)).2.1 (by decide)⟩

/-! ## C13, C15: what a join emits and records -/

/-- What the `join-room` handler emits when `rooms[roomId]` is a room of the store or
`undefined`: `user-connected` to the others in the transport room, then `room-users` with
the keys of the room's `users` other than `userId`, and `chat-history` with the room's
messages, both to the joining connection. -/
theorem onJoinRoom_out {s : State} {roomId : String}
    (h : lookup s.rooms roomId ≠ Lookup.inherited) (socket : SocketId) (userId : String) :
    ∃ room1, Props.get (onJoinRoom s socket roomId userId).state.rooms roomId = some room1 ∧
      (onJoinRoom s socket roomId userId).out =
        [Out.broadcast socket roomId (ServerEvent.userConnected userId),
         Out.emit socket (ServerEvent.roomUsers
           ((Props.keys room1.users.own).filter (fun id => decide (id ≠ userId)))),
         Out.emit socket (ServerEvent.chatHistory room1.messages)] ∧
      (onJoinRoom s socket roomId userId).threw = false ∧
      (onJoinRoom s socket roomId userId).state.joined = socketJoin s.joined socket roomId := by
  cases hl : lookup s.rooms roomId with
  | inherited => exact absurd hl h
  | own room =>
    rw [onJoinRoom_of_own hl]
    exact ⟨_, get_rooms_joinInto (get_of_lookup hl) socket userId, rfl, rfl, rfl⟩
  | undefined =>
    rw [onJoinRoom_of_undefined hl]
    exact ⟨_, get_rooms_joinInto (Props.get_put_self _ _ _ _) socket userId, rfl, rfl, rfl⟩

/-- C13, evaluated at the failing input.  In the start-up state, where no room named
`constructor` is in the store, `join-room { roomId: "constructor", userId: "alice" }` on
connection 1 ends with a `TypeError` and emits nothing: neither `room-users` nor
`chat-history` reaches the joining connection. -/
theorem join_inherited_room_name_emits_nothing :
    Props.get State.empty.rooms "constructor" = none ∧
    onJoinRoom State.empty 1 "constructor" "alice" =
      { state := State.empty, out := [], threw := true } :=
  ⟨by decide, by decide⟩

/-- C15, evaluated at two failing inputs.  In the start-up state,
`join-room { roomId: "toString", userId: "alice" }` on connection 1 ends with a
`TypeError`: afterwards there is no room `toString` and connection 1 has no binding.  And
`join-room { roomId: "r1", userId: "__proto__" }` on connection 1 creates the room and the
binding, but the room's `users` has no entry under `__proto__`. -/
theorem join_not_recorded_for_inherited_names :
    (onJoinRoom State.empty 1 "toString" "alice").threw = true ∧
    Props.get (onJoinRoom State.empty 1 "toString" "alice").state.rooms "toString" = none ∧
    Props.get (onJoinRoom State.empty 1 "toString" "alice").state.userSocketMap 1 = none ∧
    (Props.get (onJoinRoom State.empty 1 "r1" "__proto__").state.rooms "r1").map
        (fun room => Props.get room.users.own "__proto__") = some none ∧
    Props.get (onJoinRoom State.empty 1 "r1" "__proto__").state.userSocketMap 1 =
      some { userId := "__proto__", roomId := "r1" } :=
  ⟨by decide, by decide, by decide, by decide, by decide⟩

/-! ## C20: the search of the signal handler and the keyed read -/

theorem linearSearch_eq_get {u : Users} (hkeyed : u.Keyed) (targetUserId : String) :
    linearSearch u targetUserId = Props.get u.own targetUserId := by
  unfold linearSearch
  cases hg : Props.get u.own targetUserId with
  | some entry => exact find_id_of_get hkeyed hg
  | none => exact find_id_of_get_none hkeyed hg

/-- The `signal` handler of a bound connection whose room is in the store does what its
search returns: nothing when the search finds no entry, one emit to the found entry's
connection otherwise. -/
theorem onSignal_of_search {s : State} {socket : SocketId} {info : UserInfo} {room : Room}
    (hbound : Props.get s.userSocketMap socket = some info)
    (hroom : Props.get s.rooms info.roomId = some room)
    (userId targetUserId signal : String) :
    onSignal s socket userId targetUserId signal =
      match linearSearch room.users targetUserId with
      | none => { state := s, out := [], threw := false }
      | some targetUser =>
        { state := s
          out := [Out.toRoom (socketRoom targetUser.socketId)
                    (ServerEvent.signal userId signal)]
          threw := false } := by
  simp only [onSignal, hbound, lookup_of_get hroom, linearSearch]

theorem keyedLookup_of_get {u : Users} {targetUserId : String} {entry : User}
    (h : Props.get u.own targetUserId = some entry) :
    keyedLookup u targetUserId = KeyedRead.entry entry := by
  simp [keyedLookup, h]

/-- C20 fails as stated.  After `join-room { roomId: "r1", userId: "__proto__" }` on
connection 1, the keyed read `room.users["__proto__"]` gives the member entry
`{ id: "__proto__", socketId: 1 }` (the prototype the join installed), while the search of
the `signal` handler finds nothing.  And after `alice` joined `r2`, the keyed read
`room.users["constructor"]` gives a function of `Object.prototype`, which is not
`undefined`, while the search finds nothing. -/
theorem keyed_read_differs_from_search :
    Reachable (run State.empty [ClientEvent.joinRoom 1 "r1" "__proto__",
      ClientEvent.joinRoom 2 "r2" "alice"]) ∧
    (Props.get (run State.empty [ClientEvent.joinRoom 1 "r1" "__proto__",
      ClientEvent.joinRoom 2 "r2" "alice"]).rooms "r1").map
        (fun room => (keyedLookup room.users "__proto__", linearSearch room.users "__proto__")) =
      some (KeyedRead.entry { id := "__proto__", socketId := 1 }, none) ∧
    (Props.get (run State.empty [ClientEvent.joinRoom 1 "r1" "__proto__",
      ClientEvent.joinRoom 2 "r2" "alice"]).rooms "r2").map
        (fun room => (keyedLookup room.users "constructor",
          linearSearch room.users "constructor")) =
      some (KeyedRead.nonEntry, none) :=
  ⟨reachable_run _, by decide, by decide⟩

/-- C20, amended.  In every reachable state, every member entry stored under key `k` in a
room's `users` has `id` equal to `k`; hence the search of the `signal` handler returns an
entry exactly when `targetUserId` is an own key of `users`, and then returns the entry
stored under that key, which is also what the keyed read gives for an own key. -/
theorem signal_search_finds_own_key (s : State) (hreach : Reachable s) :
    KeyedById s ∧
    ∀ p ∈ s.rooms, ∀ targetUserId : String,
      linearSearch p.2.users targetUserId = Props.get p.2.users.own targetUserId ∧
      ∀ entry, Props.get p.2.users.own targetUserId = some entry →
        linearSearch p.2.users targetUserId = some entry ∧
        keyedLookup p.2.users targetUserId = KeyedRead.entry entry := by
  have hkeyed := reachable_keyedById hreach
  refine ⟨hkeyed, ?_⟩
  intro p hp targetUserId
  have hsearch := linearSearch_eq_get (hkeyed p hp) targetUserId
  refine ⟨hsearch, ?_⟩
  intro entry hentry
  exact ⟨by rw [hsearch, hentry], keyedLookup_of_get hentry⟩

/-- C20 amended, at a concrete run: `alice` and `bob` are in `r1`. -/
theorem signal_search_finds_own_key_witness :
    Reachable (run State.empty [ClientEvent.joinRoom 1 "r1" "alice",
      ClientEvent.joinRoom 2 "r1" "bob"]) ∧
    KeyedById (run State.empty [ClientEvent.joinRoom 1 "r1" "alice",
      ClientEvent.joinRoom 2 "r1" "bob"]) :=
  ⟨reachable_run _, (signal_search_finds_own_key _ (reachable_run _)).1⟩

/-! ## C11, C14: who receives a broadcast -/

theorem reachableBy_mono {ok ok1 : State → ClientEvent → Prop}
    (hok : ∀ s e, ok s e → ok1 s e) {s : State} (h : ReachableBy ok s) :
    ReachableBy ok1 s := by
  induction h with
  | init => exact ReachableBy.init
  | step e _ he ih => exact ReachableBy.step e ih (hok _ e he)

theorem reachable_members {s : State} (h : ReachableBy JoinsUnbound s) :
    MembersHaveBindings s := by
  induction h with
  | init =>
    intro rid room hroom
    cases hroom
  | step e _ hok ih => exact members_handle e hok ih

theorem mem_socketJoin {joined : List (SocketId × String)} {socket : SocketId}
    {roomId : String} {p : SocketId × String} :
    p ∈ socketJoin joined socket roomId ↔ p ∈ joined ∨ p = (socket, roomId) := by
  unfold socketJoin
  split
  · rename_i hmem
    constructor
    · intro h
      exact Or.inl h
    · rintro (h | h)
      · exact h
      · rw [h]
        exact hmem
  · simp

theorem mem_roomSockets {joined : List (SocketId × String)} {room : String} {d : SocketId} :
    d ∈ roomSockets joined room ↔ (d, room) ∈ joined := by
  unfold roomSockets
  simp only [List.mem_map, List.mem_filter, decide_eq_true_eq]
  constructor
  · rintro ⟨p, ⟨hp, hroom⟩, hd⟩
    obtain ⟨c, r⟩ := p
    simp only at hroom hd
    rw [← hroom, ← hd]
    exact hp
  · intro h
    exact ⟨(d, room), ⟨h, rfl⟩, rfl⟩

theorem joined_onSendMessage (s : State) (message roomId userId timestamp uuid : String) :
    (onSendMessage s message roomId userId timestamp uuid).state.joined = s.joined := by
  unfold onSendMessage
  split <;> rfl

theorem socketRoom_injective {a b : SocketId} (h : socketRoom a = socketRoom b) : a = b := by
  unfold socketRoom at h
  have hdata := congrArg String.data h
  simp only [List.cons.injEq, true_and] at hdata
  have hlen := congrArg List.length hdata
  simpa using hlen

theorem plainName_of_head {name : String} (h : name.data.head? ≠ some '#') :
    PlainName name := by
  intro d hd
  apply h
  rw [← hd]
  rfl

theorem joined_onDisconnect (s : State) (socket : SocketId) :
    (onDisconnect s socket).state.joined = s.joined := by
  unfold onDisconnect
  split
  · rfl
  · split <;> rfl

theorem mem_joined_onJoinRoom {s : State} {socket : SocketId} {roomId userId : String}
    {p : SocketId × String} (h : p ∈ (onJoinRoom s socket roomId userId).state.joined) :
    p ∈ s.joined ∨ p = (socket, roomId) := by
  cases hl : lookup s.rooms roomId with
  | inherited =>
    rw [onJoinRoom_of_inherited hl] at h
    exact Or.inl h
  | own room =>
    rw [onJoinRoom_of_own hl] at h
    exact mem_socketJoin.mp h
  | undefined =>
    rw [onJoinRoom_of_undefined hl] at h
    exact mem_socketJoin.mp h

theorem joinedIffBound_handle {s : State} (e : ClientEvent) (hok : JoinsUnbound s e)
    (hb : BindingsHaveMembers s) (h : JoinedIffBound s) :
    JoinedIffBound (handle s e).state := by
  cases e with
  | connect socket =>
    intro d r hplain
    show (d, r) ∈ socketJoin s.joined socket (socketRoom socket) ↔ _
    rw [mem_socketJoin]
    constructor
    · rintro (hj | hj)
      · exact (h d r hplain).mp hj
      · simp only [Prod.mk.injEq] at hj
        exact absurd hj.2.symm (hplain socket)
    · intro hu
      exact Or.inl ((h d r hplain).mpr hu)
  | joinRoom socket roomId userId =>
    have hunbound : Props.get s.userSocketMap socket = none := hok
    simp only [handle]
    have hjoin : ∀ (rooms0 : Props String Room) (room : Room),
        JoinedIffBound (joinInto s rooms0 room socket roomId userId).state := by
      intro rooms0 room d r hplain
      show (d, r) ∈ socketJoin s.joined socket roomId ↔
        ∃ u, Props.get (Props.put socketIndex s.userSocketMap socket
          { userId := userId, roomId := roomId }) d = some { userId := u, roomId := r }
      rw [mem_socketJoin]
      by_cases hd : d = socket
      · subst hd
        rw [Props.get_put_self]
        constructor
        · rintro (hj | hj)
          · obtain ⟨u, hu⟩ := (h d r hplain).mp hj
            rw [hunbound] at hu
            cases hu
          · simp only [Prod.mk.injEq, true_and] at hj
            exact ⟨userId, by rw [hj]⟩
        · rintro ⟨u, hu⟩
          simp only [Option.some.injEq, UserInfo.mk.injEq] at hu
          exact Or.inr (by rw [hu.2])
      · rw [Props.get_put_of_ne _ _ _ hd]
        constructor
        · rintro (hj | hj)
          · exact (h d r hplain).mp hj
          · simp only [Prod.mk.injEq] at hj
            exact absurd hj.1 hd
        · intro hu
          exact Or.inl ((h d r hplain).mpr hu)
    cases hl : lookup s.rooms roomId with
    | inherited =>
      rw [onJoinRoom_of_inherited hl]
      exact h
    | own room =>
      rw [onJoinRoom_of_own hl]
      exact hjoin _ _
    | undefined =>
      rw [onJoinRoom_of_undefined hl]
      exact hjoin _ _
  | signal socket userId targetUserId signal =>
    simp only [handle, onSignal_state]
    exact h
  | sendMessage socket message roomId userId timestamp uuid =>
    simp only [handle]
    intro d r hplain
    rw [joined_onSendMessage, userSocketMap_onSendMessage]
    exact h d r hplain
  | disconnect socket =>
    simp only [handle]
    have hleft : ∀ (d : SocketId) (r : String),
        (d, r) ∈ (leaveAll s socket).joined ↔ ((d, r) ∈ s.joined ∧ d ≠ socket) := by
      intro d r
      simp [leaveAll, List.mem_filter]
    cases hbound : Props.get s.userSocketMap socket with
    | none =>
      have hb1 : Props.get (leaveAll s socket).userSocketMap socket = none := hbound
      rw [onDisconnect_of_unbound hb1]
      intro d r hplain
      rw [hleft]
      show _ ↔ ∃ u, Props.get s.userSocketMap d = some { userId := u, roomId := r }
      constructor
      · rintro ⟨hj, _⟩
        exact (h d r hplain).mp hj
      · intro hu
        refine ⟨(h d r hplain).mpr hu, ?_⟩
        intro hd
        obtain ⟨u, hu⟩ := hu
        rw [hd, hbound] at hu
        cases hu
    | some info =>
      obtain ⟨room, hroom, _⟩ := hb socket info hbound
      have hb1 : Props.get (leaveAll s socket).userSocketMap socket = some info := hbound
      have hr1 : Props.get (leaveAll s socket).rooms info.roomId = some room := hroom
      obtain ⟨_, _, hmap, _⟩ := onDisconnect_of_room hb1 hr1
      intro d r hplain
      rw [joined_onDisconnect, hmap, hleft]
      show _ ↔ ∃ u, Props.get (Props.erase s.userSocketMap socket) d =
        some { userId := u, roomId := r }
      by_cases hd : d = socket
      · subst hd
        rw [Props.get_erase_self]
        constructor
        · rintro ⟨_, hne⟩
          exact absurd rfl hne
        · rintro ⟨u, hu⟩
          cases hu
      · rw [Props.get_erase_of_ne _ hd]
        constructor
        · rintro ⟨hj, _⟩
          exact (h d r hplain).mp hj
        · intro hu
          exact ⟨(h d r hplain).mpr hu, hd⟩

theorem roomsPlain_handle {s : State} (e : ClientEvent) (hok : JoinsPlainRoom s e)
    (h : RoomsPlain s) : RoomsPlain (handle s e).state := by
  cases e with
  | connect socket => exact h
  | joinRoom socket roomId userId =>
    have hplain : PlainName roomId := hok
    simp only [handle]
    rcases onJoinRoom_spec s socket roomId userId with ⟨_, heq⟩ | ⟨_, _, _, hother, _⟩
    · rw [heq]
      exact h
    · intro k room1 hk
      by_cases hkr : k = roomId
      · rw [hkr]
        exact hplain
      · rw [hother k hkr] at hk
        exact h k room1 hk
  | signal socket userId targetUserId signal =>
    simp only [handle, onSignal_state]
    exact h
  | sendMessage socket message roomId userId timestamp uuid =>
    simp only [handle]
    intro k room1 hk
    have hmap := users_rooms_onSendMessage s message roomId userId timestamp uuid k
    rw [hk] at hmap
    obtain ⟨room2, hr2, _⟩ := Option.map_eq_some'.mp hmap.symm
    exact h k room2 hr2
  | disconnect socket =>
    simp only [handle]
    have g : RoomsPlain (leaveAll s socket) := h
    generalize leaveAll s socket = t at g
    cases hb : Props.get t.userSocketMap socket with
    | none =>
      rw [onDisconnect_of_unbound hb]
      exact g
    | some info =>
      cases hl : lookup t.rooms info.roomId with
      | inherited =>
        rw [onDisconnect_of_inherited hb hl]
        exact g
      | undefined =>
        rw [onDisconnect_of_undefined hb hl]
        exact g
      | own room =>
        have hroom := get_of_lookup hl
        obtain ⟨_, hother, _, _⟩ := onDisconnect_of_room hb hroom
        intro k room1 hk
        by_cases hkr : k = info.roomId
        · rw [hkr]
          exact g info.roomId room hroom
        · rw [hother k hkr] at hk
          exact g k room1 hk

theorem ownRoomsPrivate_handle {s : State} (e : ClientEvent) (hok : JoinsPlainRoom s e)
    (h : OwnRoomsPrivate s) : OwnRoomsPrivate (handle s e).state := by
  cases e with
  | connect socket =>
    intro d d1 hd
    rcases mem_socketJoin.mp hd with hd | hd
    · exact h d d1 hd
    · simp only [Prod.mk.injEq] at hd
      rw [hd.1, socketRoom_injective hd.2]
  | joinRoom socket roomId userId =>
    have hplain : PlainName roomId := hok
    intro d d1 hd
    rcases mem_joined_onJoinRoom hd with hd | hd
    · exact h d d1 hd
    · simp only [Prod.mk.injEq] at hd
      exact absurd hd.2 (hplain d1)
  | signal socket userId targetUserId signal =>
    simp only [handle, onSignal_state]
    exact h
  | sendMessage socket message roomId userId timestamp uuid =>
    intro d d1 hd
    simp only [handle, joined_onSendMessage] at hd
    exact h d d1 hd
  | disconnect socket =>
    intro d d1 hd
    simp only [handle, joined_onDisconnect, leaveAll, List.mem_filter] at hd
    exact h d d1 hd.1

theorem reachable_private {s : State} (h : ReachableBy JoinsPlainRoom s) :
    OwnRoomsPrivate s := by
  induction h with
  | init =>
    intro d d1 hd
    cases hd
  | step e _ hok ih => exact ownRoomsPrivate_handle e hok ih

/-- The invariants of runs in which every join is fresh. -/
theorem reachable_fresh {s : State} (h : ReachableBy JoinsFresh s) :
    BindingsHaveMembers s ∧ BindingsDistinct s ∧ MembersHaveBindings s ∧
      JoinedIffBound s ∧ RoomsPlain s := by
  have hb := reachable_bindings (reachableBy_mono (fun _ _ hf => hf.1) h)
  have hm := reachable_members (reachableBy_mono (fun _ _ hf => hf.2.1) h)
  refine ⟨hb.1, hb.2, hm, ?_, ?_⟩
  · induction h with
    | init =>
      intro d r _
      constructor
      · intro hj
        cases hj
      · rintro ⟨u, hu⟩
        cases hu
    | step e hprev hok ih =>
      have hbprev := reachable_bindings (reachableBy_mono (fun _ _ hf => hf.1) hprev)
      have hmprev := reachable_members (reachableBy_mono (fun _ _ hf => hf.2.1) hprev)
      exact joinedIffBound_handle e hok.2.1 hbprev.1 (ih hbprev hmprev)
  · induction h with
    | init =>
      intro k room hk
      cases hk
    | step e hprev hok ih =>
      have hbprev := reachable_bindings (reachableBy_mono (fun _ _ hf => hf.1) hprev)
      have hmprev := reachable_members (reachableBy_mono (fun _ _ hf => hf.2.1) hprev)
      exact roomsPlain_handle e hok.2.2 (ih hbprev hmprev)

/-- In a run in which every join is fresh, the connections in the transport room of a room
of the store are the connections its member entries hold. -/
theorem fresh_room_sockets {s : State} (h : ReachableBy JoinsFresh s) {roomId : String}
    {room : Room} (hroom : Props.get s.rooms roomId = some room) (d : SocketId) :
    d ∈ roomSockets s.joined roomId ↔
      ∃ k entry, Props.get room.users.own k = some entry ∧ entry.socketId = d := by
  obtain ⟨hb, hdist, hm, hj, hplain⟩ := reachable_fresh h
  rw [mem_roomSockets, hj d roomId (hplain roomId room hroom)]
  constructor
  · rintro ⟨u, hu⟩
    obtain ⟨room1, hr1, hhas⟩ := hb d _ hu
    simp only at hr1 hhas
    rw [hroom] at hr1
    cases hr1
    obtain ⟨entry, hentry⟩ := Props.has_iff.mp hhas
    have hbind := hm roomId room hroom u entry hentry
    exact ⟨u, entry, hentry, hdist _ _ _ hbind hu⟩
  · rintro ⟨k, entry, hentry, hd⟩
    have hbind := hm roomId room hroom k entry hentry
    rw [hd] at hbind
    exact ⟨k, hbind⟩

/-- C11 fails as stated.  Connections 1, 2 and 3 are open; `alice` joins room `r1` on
connection 1 and again on connection 2; connection 3, which never joined, sends a message
naming `r1`.  The `new-message` event goes to the transport room `r1`, that is to
connections 1 and 2, while the members mapping of `r1` records connection 2 only, and the
sender 3 is not among the receivers. -/
theorem new_message_receivers_differ_from_members :
    Reachable (run State.empty [ClientEvent.connect 1, ClientEvent.connect 2,
      ClientEvent.connect 3, ClientEvent.joinRoom 1 "r1" "alice",
      ClientEvent.joinRoom 2 "r1" "alice"]) ∧
    (handle (run State.empty [ClientEvent.connect 1, ClientEvent.connect 2,
        ClientEvent.connect 3, ClientEvent.joinRoom 1 "r1" "alice",
        ClientEvent.joinRoom 2 "r1" "alice"])
      (ClientEvent.sendMessage 3 "hello" "r1" "carol" "1700000000" "id-1")).out =
      [Out.toRoom "r1" (ServerEvent.newMessage
        { id := "id-1", userId := "carol", message := "hello", timestamp := "1700000000" })] ∧
    recipients (handle (run State.empty [ClientEvent.connect 1, ClientEvent.connect 2,
        ClientEvent.connect 3, ClientEvent.joinRoom 1 "r1" "alice",
        ClientEvent.joinRoom 2 "r1" "alice"])
      (ClientEvent.sendMessage 3 "hello" "r1" "carol" "1700000000" "id-1")).state
      (Out.toRoom "r1" (ServerEvent.newMessage
        { id := "id-1", userId := "carol", message := "hello", timestamp := "1700000000" })) =
      [1, 2] ∧
    (Props.get (handle (run State.empty [ClientEvent.connect 1, ClientEvent.connect 2,
        ClientEvent.connect 3, ClientEvent.joinRoom 1 "r1" "alice",
        ClientEvent.joinRoom 2 "r1" "alice"])
      (ClientEvent.sendMessage 3 "hello" "r1" "carol" "1700000000" "id-1")).state.rooms
      "r1").map (fun room => (Props.values room.users.own).map User.socketId) = some [2] :=
  ⟨reachable_run _, by decide, by decide, by decide⟩

/-- C11, amended.  In every state reachable by events in which every `join-room` arrives
on a connection without a binding, names a user id new to the room (and not `__proto__`)
and names a room id that is the socket id of no connection, for every `send-message` from
any connection naming a room of the store: the one `new-message` event goes to the
transport room `roomId`, the connections that receive it are exactly the connections
recorded in the room's members mapping, and the sender is among them exactly when it is
bound to that room. -/
theorem new_message_reaches_members_in_fresh_runs (s : State)
    (hreach : ReachableBy JoinsFresh s) (socket : SocketId)
    (message roomId userId timestamp uuid : String) (room : Room)
    (hroom : Props.get s.rooms roomId = some room) :
    (handle s (ClientEvent.sendMessage socket message roomId userId timestamp uuid)).out =
      [Out.toRoom roomId (ServerEvent.newMessage
        { id := uuid, userId := userId, message := message, timestamp := timestamp })] ∧
    (∀ d, d ∈ recipients
        (handle s (ClientEvent.sendMessage socket message roomId userId timestamp uuid)).state
        (Out.toRoom roomId (ServerEvent.newMessage
          { id := uuid, userId := userId, message := message, timestamp := timestamp })) ↔
      ∃ k entry, Props.get room.users.own k = some entry ∧ entry.socketId = d) ∧
    (socket ∈ recipients
        (handle s (ClientEvent.sendMessage socket message roomId userId timestamp uuid)).state
        (Out.toRoom roomId (ServerEvent.newMessage
          { id := uuid, userId := userId, message := message, timestamp := timestamp })) ↔
      ∃ u, Props.get s.userSocketMap socket = some { userId := u, roomId := roomId }) := by
  obtain ⟨_, _, _, hj, hplain⟩ := reachable_fresh hreach
  simp only [handle, recipients]
  refine ⟨?_, ?_, ?_⟩
  · rw [onSendMessage_of_get hroom]
  · intro d
    rw [joined_onSendMessage]
    exact fresh_room_sockets hreach hroom d
  · rw [joined_onSendMessage, mem_roomSockets]
    exact hj socket roomId (hplain roomId room hroom)

/-- C11 amended, at a concrete run: connections 1 and 2 open, `alice` joins `r1` on
connection 1 and `bob` on connection 2, and `alice` sends a message; connection 2 is among
the receivers. -/
theorem new_message_reaches_members_in_fresh_runs_witness :
    ReachableBy JoinsFresh (run State.empty [ClientEvent.connect 1, ClientEvent.connect 2,
      ClientEvent.joinRoom 1 "r1" "alice", ClientEvent.joinRoom 2 "r1" "bob"]) ∧
    2 ∈ recipients (handle (run State.empty [ClientEvent.connect 1, ClientEvent.connect 2,
        ClientEvent.joinRoom 1 "r1" "alice", ClientEvent.joinRoom 2 "r1" "bob"])
      (ClientEvent.sendMessage 1 "hello" "r1" "alice" "1700000000" "id-1")).state
      (Out.toRoom "r1" (ServerEvent.newMessage
        { id := "id-1", userId := "alice", message := "hello", timestamp := "1700000000" })) := by
  have hreach : ReachableBy JoinsFresh (run State.empty [ClientEvent.connect 1,
      ClientEvent.connect 2, ClientEvent.joinRoom 1 "r1" "alice",
      ClientEvent.joinRoom 2 "r1" "bob"]) :=
    ReachableBy.step (ClientEvent.joinRoom 2 "r1" "bob")
      (ReachableBy.step (ClientEvent.joinRoom 1 "r1" "alice")
        (ReachableBy.step (ClientEvent.connect 2)
          (ReachableBy.step (ClientEvent.connect 1) ReachableBy.init
            ⟨trivial, trivial, trivial⟩)
          ⟨trivial, trivial, trivial⟩)
        ⟨by decide, by decide, plainName_of_head (by decide)⟩)
      ⟨by decide, by decide, plainName_of_head (by decide)⟩
  refine ⟨hreach, ?_⟩
  exact ((new_message_reaches_members_in_fresh_runs _ hreach 1
    "hello" "r1" "alice" "1700000000" "id-1"
    { id := "r1"
      users := { own := [("alice", { id := "alice", socketId := 1 }),
                         ("bob", { id := "bob", socketId := 2 })], proto := none }
      messages := [] }
    (by decide)).2.1 2).mpr ⟨"bob", { id := "bob", socketId := 2 }, by decide, rfl⟩

/-- C14 fails as stated.  Connections 1 and 2 are open; `alice` is in room `r1` on
connection 1 and joins it again on connection 2: the `user-connected` event goes to
connection 1, which stays in the transport room, while after the join the room has no
member other than `alice`, so no connection is recorded for another member. -/
theorem user_connected_receivers_differ_from_members :
    Reachable (run State.empty [ClientEvent.connect 1, ClientEvent.connect 2,
      ClientEvent.joinRoom 1 "r1" "alice"]) ∧
    recipients (handle (run State.empty [ClientEvent.connect 1, ClientEvent.connect 2,
        ClientEvent.joinRoom 1 "r1" "alice"])
        (ClientEvent.joinRoom 2 "r1" "alice")).state
      (Out.broadcast 2 "r1" (ServerEvent.userConnected "alice")) = [1] ∧
    (Props.get (handle (run State.empty [ClientEvent.connect 1, ClientEvent.connect 2,
        ClientEvent.joinRoom 1 "r1" "alice"])
        (ClientEvent.joinRoom 2 "r1" "alice")).state.rooms "r1").map
      (fun room => ((room.users.own.filter (fun q => decide (q.1 ≠ "alice"))).map
        (fun q => q.2.socketId))) = some [] ∧
    (handle (run State.empty [ClientEvent.connect 1, ClientEvent.connect 2,
        ClientEvent.joinRoom 1 "r1" "alice"])
        (ClientEvent.joinRoom 2 "r1" "alice")).out =
      [Out.broadcast 2 "r1" (ServerEvent.userConnected "alice"),
       Out.emit 2 (ServerEvent.roomUsers []),
       Out.emit 2 (ServerEvent.chatHistory [])] :=
  ⟨reachable_run _, by decide, by decide, by decide⟩

/-- C14, amended.  In every state reachable by events in which every `join-room` arrives
on a connection without a binding, names a user id new to the room (and not `__proto__`)
and names a room id that is the socket id of no connection, for every such
`join-room { roomId, userId }` whose `roomId` is not a property name inherited from
`Object.prototype`: the handler emits exactly one `user-connected` event, its payload is
`{ userId }`, the connections that receive it are exactly the connections recorded for the
other members of the room, and the joining connection does not receive it. -/
theorem user_connected_reaches_other_members_in_fresh_runs (s : State)
    (hreach : ReachableBy JoinsFresh s) (socket : SocketId) (roomId userId : String)
    (hfresh : JoinsFresh s (ClientEvent.joinRoom socket roomId userId))
    (hname : lookup s.rooms roomId ≠ Lookup.inherited) :
    ∃ room1 users,
      Props.get (handle s (ClientEvent.joinRoom socket roomId userId)).state.rooms roomId =
        some room1 ∧
      (handle s (ClientEvent.joinRoom socket roomId userId)).out =
        [Out.broadcast socket roomId (ServerEvent.userConnected userId),
         Out.emit socket (ServerEvent.roomUsers users),
         Out.emit socket (ServerEvent.chatHistory room1.messages)] ∧
      (∀ d, d ∈ recipients (handle s (ClientEvent.joinRoom socket roomId userId)).state
          (Out.broadcast socket roomId (ServerEvent.userConnected userId)) ↔
        ∃ k entry, k ≠ userId ∧ Props.get room1.users.own k = some entry ∧
          entry.socketId = d) ∧
      socket ∉ recipients (handle s (ClientEvent.joinRoom socket roomId userId)).state
        (Out.broadcast socket roomId (ServerEvent.userConnected userId)) := by
  have hpost : ReachableBy JoinsFresh
      (handle s (ClientEvent.joinRoom socket roomId userId)).state :=
    ReachableBy.step _ hreach hfresh
  obtain ⟨_, hdist, hm, _, _⟩ := reachable_fresh hpost
  obtain ⟨room1, hr1, hout, _, _⟩ := onJoinRoom_out hname socket userId
  have hbind : Props.get
      (handle s (ClientEvent.joinRoom socket roomId userId)).state.userSocketMap socket =
      some { userId := userId, roomId := roomId } := by
    simp only [handle]
    rcases onJoinRoom_spec s socket roomId userId with ⟨hl, _⟩ | ⟨_, _, _, _, hmap⟩
    · exact absurd hl hname
    · rw [hmap]
      exact Props.get_put_self _ _ _ _
  have hmem : ∀ d, d ∈ recipients (handle s (ClientEvent.joinRoom socket roomId userId)).state
      (Out.broadcast socket roomId (ServerEvent.userConnected userId)) ↔
      (d ≠ socket ∧ ∃ k entry, Props.get room1.users.own k = some entry ∧
        entry.socketId = d) := by
    intro d
    simp only [recipients, List.mem_filter, decide_eq_true_eq]
    rw [fresh_room_sockets hpost hr1 d]
    tauto
  refine ⟨room1, _, hr1, hout, ?_, ?_⟩
  · intro d
    rw [hmem]
    constructor
    · rintro ⟨hd, k, entry, hentry, hsock⟩
      refine ⟨k, entry, ?_, hentry, hsock⟩
      intro hk
      subst hk
      have hb := hm roomId room1 hr1 k entry hentry
      exact hd (hsock ▸ hdist _ _ _ hb hbind)
    · rintro ⟨k, entry, hk, hentry, hsock⟩
      refine ⟨?_, k, entry, hentry, hsock⟩
      intro hd
      have hb := hm roomId room1 hr1 k entry hentry
      rw [hsock, hd, hbind] at hb
      exact hk (congrArg UserInfo.userId (Option.some.inj hb)).symm
  · intro hin
    exact ((hmem socket).mp hin).1 rfl

/-- C14 amended, at a concrete run: connections 1 and 2 are open, `alice` is in `r1` on
connection 1 and `bob` joins on connection 2; connection 1 receives `user-connected` and
connection 2 does not. -/
theorem user_connected_reaches_other_members_in_fresh_runs_witness :
    ReachableBy JoinsFresh (run State.empty [ClientEvent.connect 1, ClientEvent.connect 2,
      ClientEvent.joinRoom 1 "r1" "alice"]) ∧
    JoinsFresh (run State.empty [ClientEvent.connect 1, ClientEvent.connect 2,
      ClientEvent.joinRoom 1 "r1" "alice"]) (ClientEvent.joinRoom 2 "r1" "bob") ∧
    recipients (handle (run State.empty [ClientEvent.connect 1, ClientEvent.connect 2,
        ClientEvent.joinRoom 1 "r1" "alice"]) (ClientEvent.joinRoom 2 "r1" "bob")).state
      (Out.broadcast 2 "r1" (ServerEvent.userConnected "bob")) = [1] ∧
    2 ∉ recipients (handle (run State.empty [ClientEvent.connect 1, ClientEvent.connect 2,
        ClientEvent.joinRoom 1 "r1" "alice"]) (ClientEvent.joinRoom 2 "r1" "bob")).state
      (Out.broadcast 2 "r1" (ServerEvent.userConnected "bob")) := by
  have hreach : ReachableBy JoinsFresh (run State.empty [ClientEvent.connect 1,
      ClientEvent.connect 2, ClientEvent.joinRoom 1 "r1" "alice"]) :=
    ReachableBy.step (ClientEvent.joinRoom 1 "r1" "alice")
      (ReachableBy.step (ClientEvent.connect 2)
        (ReachableBy.step (ClientEvent.connect 1) ReachableBy.init
          ⟨trivial, trivial, trivial⟩)
        ⟨trivial, trivial, trivial⟩)
      ⟨by decide, by decide, plainName_of_head (by decide)⟩
  have hfresh : JoinsFresh (run State.empty [ClientEvent.connect 1, ClientEvent.connect 2,
      ClientEvent.joinRoom 1 "r1" "alice"]) (ClientEvent.joinRoom 2 "r1" "bob") :=
    ⟨by decide, by decide, plainName_of_head (by decide)⟩
  refine ⟨hreach, hfresh, by decide, ?_⟩
  obtain ⟨_, _, _, _, _, hnot⟩ := user_connected_reaches_other_members_in_fresh_runs _ hreach
    2 "r1" "bob" hfresh (by decide)
  exact hnot

/-! ## C12: the leave event -/

/-- C12 fails as stated.  Connections 1 and 2 are open; `alice` joins room `r1` on
connection 1 and again on connection 2, then connection 2 disconnects: the removal deletes
`r1` from the store, and the handler still emits `user-disconnected { userId: "alice" }`
to the transport room `r1`, where connection 1 receives it. -/
theorem leave_event_emitted_when_room_deleted :
    (Props.get (run State.empty [ClientEvent.connect 1, ClientEvent.connect 2,
      ClientEvent.joinRoom 1 "r1" "alice",
      ClientEvent.joinRoom 2 "r1" "alice"]).rooms "r1").isSome = true ∧
    Props.get (run State.empty [ClientEvent.connect 1, ClientEvent.connect 2,
      ClientEvent.joinRoom 1 "r1" "alice",
      ClientEvent.joinRoom 2 "r1" "alice"]).userSocketMap 2 =
        some { userId := "alice", roomId := "r1" } ∧
    Props.get (handle (run State.empty [ClientEvent.connect 1, ClientEvent.connect 2,
      ClientEvent.joinRoom 1 "r1" "alice",
      ClientEvent.joinRoom 2 "r1" "alice"]) (ClientEvent.disconnect 2)).state.rooms "r1" =
        none ∧
    (handle (run State.empty [ClientEvent.connect 1, ClientEvent.connect 2,
      ClientEvent.joinRoom 1 "r1" "alice",
      ClientEvent.joinRoom 2 "r1" "alice"]) (ClientEvent.disconnect 2)).out =
        [Out.broadcast 2 "r1" (ServerEvent.userDisconnected "alice")] ∧
    recipients (handle (run State.empty [ClientEvent.connect 1, ClientEvent.connect 2,
      ClientEvent.joinRoom 1 "r1" "alice",
      ClientEvent.joinRoom 2 "r1" "alice"]) (ClientEvent.disconnect 2)).state
        (Out.broadcast 2 "r1" (ServerEvent.userDisconnected "alice")) = [1] :=
  ⟨by decide, by decide, by decide, by decide, by decide⟩

/-- C12, amended.  For every state and every connection bound to `(userId, roomId)`,
handling `disconnect` emits `user-disconnected { userId }` to the transport room `roomId`
(except the disconnecting connection) exactly when the room is in the store before the
removal, whether or not the removal then deletes the room; when the room is not in the
store, nothing is emitted. -/
theorem leave_event_emitted_when_room_existed (s : State) (socket : SocketId)
    (info : UserInfo) (hbound : Props.get s.userSocketMap socket = some info) :
    (∀ room, Props.get s.rooms info.roomId = some room →
      (handle s (ClientEvent.disconnect socket)).out =
        [Out.broadcast socket info.roomId (ServerEvent.userDisconnected info.userId)]) ∧
    (Props.get s.rooms info.roomId = none →
      (handle s (ClientEvent.disconnect socket)).out = []) := by
  have hb : Props.get (leaveAll s socket).userSocketMap socket = some info := hbound
  refine ⟨?_, ?_⟩
  · intro room hroom
    have hr : Props.get (leaveAll s socket).rooms info.roomId = some room := hroom
    exact (onDisconnect_of_room hb hr).2.2.2
  · intro hnone
    simp only [handle]
    cases hl : lookup (leaveAll s socket).rooms info.roomId with
    | own room =>
      have hr : Props.get s.rooms info.roomId = some room := get_of_lookup hl
      rw [hnone] at hr
      cases hr
    | inherited => rw [onDisconnect_of_inherited hb hl]
    | undefined => rw [onDisconnect_of_undefined hb hl]

/-- C12 amended, at a concrete state: `alice` is the sole member of `r1`; her disconnect
deletes the room and emits the leave event. -/
theorem leave_event_emitted_when_room_existed_witness :
    (handle (run State.empty [ClientEvent.connect 1, ClientEvent.joinRoom 1 "r1" "alice"])
      (ClientEvent.disconnect 1)).out =
        [Out.broadcast 1 "r1" (ServerEvent.userDisconnected "alice")] ∧
    Props.get (handle (run State.empty [ClientEvent.connect 1,
      ClientEvent.joinRoom 1 "r1" "alice"]) (ClientEvent.disconnect 1)).state.rooms "r1" =
        none :=
  ⟨(leave_event_emitted_when_room_existed
      (run State.empty [ClientEvent.connect 1, ClientEvent.joinRoom 1 "r1" "alice"]) 1
      { userId := "alice", roomId := "r1" } (by decide)).1
      { id := "r1"
        users := { own := [("alice", { id := "alice", socketId := 1 })], proto := none }
        messages := [] }
      (by decide),
    by decide⟩

/-! ## C9: who receives a signal -/

/-- C9 fails as stated.  Connection 1 is open and `alice` joined room `r1` on it; a
`signal` from connection 1 whose `targetUserId` is `alice` (a member of the sender's room)
is sent to the socket id of connection 1, and connection 1, the sender, receives it. -/
theorem signal_to_own_user_id_reaches_sender :
    Reachable (run State.empty [ClientEvent.connect 1,
      ClientEvent.joinRoom 1 "r1" "alice"]) ∧
    Props.get (run State.empty [ClientEvent.connect 1,
      ClientEvent.joinRoom 1 "r1" "alice"]).userSocketMap 1 =
      some { userId := "alice", roomId := "r1" } ∧
    (Props.get (run State.empty [ClientEvent.connect 1,
      ClientEvent.joinRoom 1 "r1" "alice"]).rooms "r1").map
        (fun room => Props.get room.users.own "alice") =
      some (some { id := "alice", socketId := 1 }) ∧
    (onSignal (run State.empty [ClientEvent.connect 1, ClientEvent.joinRoom 1 "r1" "alice"])
      1 "alice" "alice" "offer").out =
        [Out.toRoom (socketRoom 1) (ServerEvent.signal "alice" "offer")] ∧
    recipients (onSignal (run State.empty [ClientEvent.connect 1,
      ClientEvent.joinRoom 1 "r1" "alice"]) 1 "alice" "alice" "offer").state
      (Out.toRoom (socketRoom 1) (ServerEvent.signal "alice" "offer")) = [1] :=
  ⟨reachable_run _, by decide, by decide, by decide, by decide⟩

/-- C9, amended.  In every state reachable by events in which no `join-room` names a room
id that is the socket id of a connection, for every `signal` sent from an open connection
whose `targetUserId` is a member of the sender's bound room: the handler emits the
`signal` event once, to the socket id of the connection recorded in the target's member
entry; no connection other than that one receives it, and that one receives it when it is
still open.  So the sender receives it exactly when the target's entry records the sender
itself, as when the sender names its own user id. -/
theorem signal_received_by_recorded_connection_only (s : State)
    (hreach : ReachableBy JoinsPlainRoom s)
    (socket : SocketId) (info : UserInfo) (room : Room) (userId targetUserId signal : String)
    (target : User)
    (hbound : Props.get s.userSocketMap socket = some info)
    (hroom : Props.get s.rooms info.roomId = some room)
    (hmember : Props.get room.users.own targetUserId = some target)
    (hopen : (socket, socketRoom socket) ∈ s.joined) :
    (onSignal s socket userId targetUserId signal).out =
      [Out.toRoom (socketRoom target.socketId) (ServerEvent.signal userId signal)] ∧
    (∀ d ∈ recipients (onSignal s socket userId targetUserId signal).state
        (Out.toRoom (socketRoom target.socketId) (ServerEvent.signal userId signal)),
      d = target.socketId) ∧
    ((target.socketId, socketRoom target.socketId) ∈ s.joined →
      target.socketId ∈ recipients (onSignal s socket userId targetUserId signal).state
        (Out.toRoom (socketRoom target.socketId) (ServerEvent.signal userId signal))) ∧
    (socket ∈ recipients (onSignal s socket userId targetUserId signal).state
        (Out.toRoom (socketRoom target.socketId) (ServerEvent.signal userId signal)) ↔
      target.socketId = socket) := by
  have hkeyed : room.users.Keyed :=
    reachable_keyedById hreach (info.roomId, room) (Props.mem_of_get hroom)
  have hprivate := reachable_private hreach
  rw [onSignal_of_member hbound hroom hkeyed hmember]
  simp only [recipients]
  have honly : ∀ d ∈ roomSockets s.joined (socketRoom target.socketId),
      d = target.socketId := by
    intro d hd
    exact hprivate d target.socketId (mem_roomSockets.mp hd)
  refine ⟨trivial, honly, ?_, ?_⟩
  · intro htarget
    exact mem_roomSockets.mpr htarget
  · constructor
    · intro hd
      exact (honly socket hd).symm
    · intro heq
      rw [heq]
      exact mem_roomSockets.mpr hopen

/-- C9 amended, at a concrete run: connections 1 and 2 are open, `alice` on connection 1
and `bob` on connection 2 are in `r1`, and `alice` signals `bob`: connection 2 receives the
signal and connection 1 does not. -/
theorem signal_received_by_recorded_connection_only_witness :
    ReachableBy JoinsPlainRoom (run State.empty [ClientEvent.connect 1,
      ClientEvent.connect 2, ClientEvent.joinRoom 1 "r1" "alice",
      ClientEvent.joinRoom 2 "r1" "bob"]) ∧
    recipients (onSignal (run State.empty [ClientEvent.connect 1, ClientEvent.connect 2,
        ClientEvent.joinRoom 1 "r1" "alice", ClientEvent.joinRoom 2 "r1" "bob"])
      1 "alice" "bob" "offer").state
      (Out.toRoom (socketRoom 2) (ServerEvent.signal "alice" "offer")) = [2] ∧
    ¬ (1 ∈ recipients (onSignal (run State.empty [ClientEvent.connect 1,
        ClientEvent.connect 2, ClientEvent.joinRoom 1 "r1" "alice",
        ClientEvent.joinRoom 2 "r1" "bob"]) 1 "alice" "bob" "offer").state
      (Out.toRoom (socketRoom 2) (ServerEvent.signal "alice" "offer"))) := by
  have hreach : ReachableBy JoinsPlainRoom (run State.empty [ClientEvent.connect 1,
      ClientEvent.connect 2, ClientEvent.joinRoom 1 "r1" "alice",
      ClientEvent.joinRoom 2 "r1" "bob"]) :=
    ReachableBy.step (ClientEvent.joinRoom 2 "r1" "bob")
      (ReachableBy.step (ClientEvent.joinRoom 1 "r1" "alice")
        (ReachableBy.step (ClientEvent.connect 2)
          (ReachableBy.step (ClientEvent.connect 1) ReachableBy.init trivial)
          trivial)
        (plainName_of_head (by decide)))
      (plainName_of_head (by decide))
  refine ⟨hreach, by decide, ?_⟩
  intro hin
  have h := (signal_received_by_recorded_connection_only _ hreach 1
    { userId := "alice", roomId := "r1" }
    { id := "r1"
      users := { own := [("alice", { id := "alice", socketId := 1 }),
                         ("bob", { id := "bob", socketId := 2 })], proto := none }
      messages := [] }
    "alice" "bob" "offer" { id := "bob", socketId := 2 }
    (by decide) (by decide) (by decide) (by decide)).2.2.2.mp hin
  exact absurd h (by decide)

end Meet2Mee
